import Mathlib

/-!
Verification development for the force10 optimistic-navigation engine
(client package: cache.ts, matcher.ts, preflight.ts, navigator.ts, patch.ts).

The TypeScript sources are shallowly embedded as pure Lean functions:

* the JavaScript `Map` backing the page cache is modelled as an
  insertion-ordered association list (oldest entry first), exactly the
  iteration order the source relies on for eviction;
* the two glob-to-RegExp compilers (`patternToRegex` in cache.ts and
  `excludePatternToRegex` in matcher.ts) are embedded as compilers to a
  small atom language (`GlobAtom`), whose acceptance function gives the
  language of the emitted regex (anchored `^...$`, with `.*`, `.`,
  escaped literals, and the bare `?` quantifier the cache compiler can
  emit because its escape set omits `?`);
* route patterns are compiled to segment matchers mirroring
  `compilePattern` (static segment, `:param`, `:param?`, wildcard, and
  the optional trailing slash);
* `Date.now()` is passed explicitly as a `now : Nat` argument;
* the interceptor (`patch.ts`) is a step function on an explicit state:
  traces of host events (visit calls, the `navigate` event, timer
  expiries) drive it, and issued `originalVisit` calls are recorded in
  an append-only log.
-/

namespace Force10

/-! ## Glob pattern compilation (cache.ts `patternToRegex`,
matcher.ts `excludePatternToRegex`)

Both source functions build an anchored JavaScript regex from a glob
string. The regexes they can emit use only: literal (escaped)
characters, `.*` (from `*`), `.` (from `?` in the exclude compiler),
and a bare `?` quantifier (the cache compiler leaves `?` unescaped, so
in its output `?` makes the preceding atom optional). We model that
regex sublanguage by lists of `GlobAtom` and a backtracking acceptance
function equivalent to anchored regex matching. -/

/-- Atoms of the regex sublanguage emitted by the two glob compilers. -/
inductive GlobAtom where
  /-- `.*` — any run of characters, possibly empty. -/
  | star : GlobAtom
  /-- `.` — exactly one character. -/
  | anyOne : GlobAtom
  /-- an escaped literal character. -/
  | lit : Char → GlobAtom
  /-- an escaped literal made optional by a `?` quantifier. -/
  | optLit : Char → GlobAtom
deriving DecidableEq, Repr

/-- Backtracking acceptance loop for the atom regex sublanguage. The
`fuel` argument only bounds the recursion so the definition is
structural (and hence kernel-reducible): every recursive call strictly
decreases the measure `as.length + 2 * cs.length`, so any fuel above
that measure gives the exact anchored-regex acceptance. -/
def atomsGo : Nat → List GlobAtom → List Char → Bool
  | 0, _, _ => false
  | _ + 1, [], [] => true
  | _ + 1, [], _ :: _ => false
  | fuel + 1, .star :: as, cs =>
    atomsGo fuel as cs ||
      (match cs with
       | [] => false
       | _ :: cs2 => atomsGo fuel (.star :: as) cs2)
  | fuel + 1, .anyOne :: as, _ :: cs => atomsGo fuel as cs
  | _ + 1, .anyOne :: _, [] => false
  | fuel + 1, .lit c :: as, k :: cs => (c == k) && atomsGo fuel as cs
  | _ + 1, .lit _ :: _, [] => false
  | fuel + 1, .optLit c :: as, cs =>
    atomsGo fuel as cs ||
      (match cs with
       | [] => false
       | k :: cs2 => (c == k) && atomsGo fuel as cs2)

/-- Acceptance of an atom list on a character list, equivalent to
anchored matching of the corresponding regex. -/
def atomsAccept (as : List GlobAtom) (cs : List Char) : Bool :=
  atomsGo (as.length + 2 * cs.length + 1) as cs

/-- Embedding of matcher.ts `excludePatternToRegex`: walk the pattern,
`*` becomes `.*`, `?` becomes `.`, every other character is an escaped
literal. The compilation never fails. -/
def excludePatternToRegex (pattern : List Char) : List GlobAtom :=
  pattern.map fun ch =>
    if ch = '*' then .star
    else if ch = '?' then .anyOne
    else .lit ch

/-- Embedding of cache.ts `patternToRegex`: the escape step escapes
regex metacharacters but deliberately leaves `*` and, notably, `?`
untouched; every `*` is then replaced by `.*`. A `?` in the pattern
therefore survives as a bare regex quantifier applying to the
preceding atom: after a literal it makes it optional, after `.*` it
only switches greediness (same language), after an optional atom it
switches greediness as well, and with no preceding atom the RegExp
constructor throws — modelled as `none`. -/
def patternToRegex : List Char → List GlobAtom → Option (List GlobAtom)
  | [], acc => some acc.reverse
  | c :: rest, acc =>
    if c = '*' then patternToRegex rest (.star :: acc)
    else if c = '?' then
      match acc with
      | [] => none
      | .star :: _ => patternToRegex rest acc
      | .anyOne :: _ => none
      | .optLit _ :: _ => patternToRegex rest acc
      | .lit c2 :: tl => patternToRegex rest (.optLit c2 :: tl)
    else patternToRegex rest (.lit c :: acc)

/-- Acceptance of a URL key by the exclude-style compilation of a glob
pattern (matcher.ts semantics: `*` = any run, `?` = any one char). -/
def excludeGlobAccepts (pattern key : String) : Bool :=
  atomsAccept (excludePatternToRegex pattern.data) key.data

/-- Acceptance of a URL key by the cache-style compilation of a glob
pattern; `none` models a RegExp constructor error. -/
def cacheGlobAccepts (pattern key : String) : Option Bool :=
  (patternToRegex pattern.data []).map fun atoms => atomsAccept atoms key.data

/-! ## Page cache (cache.ts)

The backing `Map<string, CachedPage>` is modelled as an association
list in insertion order, oldest first; `props` is an opaque type
parameter since the cache never inspects it. -/

/-- Embedding of the `CachedPage` record. -/
structure CachedPage (Props : Type) where
  props : Props
  timestamp : Nat
  url : String
  component : String
deriving DecidableEq, Repr

/-- The cache store: insertion-ordered key/entry pairs, oldest first
(the iteration order of a JavaScript `Map`). -/
abbrev CacheStore (Props : Type) := List (String × CachedPage Props)

namespace Cache

variable {Props : Type}

/-- Embedding of `isExpired`: `Date.now() - entry.timestamp > ttl`
with explicit `now`. Both JavaScript and truncated `Nat` subtraction
make the condition false when `now < timestamp`. -/
def isExpired (ttl now : Nat) (entry : CachedPage Props) : Bool :=
  now - entry.timestamp > ttl

/-- Embedding of `evictIfNeeded`: while the store is over capacity,
delete the first (oldest) key. The loop is phrased as structural
recursion on the store; an empty store is never over capacity so the
loop body never runs on it. -/
def evictIfNeeded (maxEntries : Nat) : CacheStore Props → CacheStore Props
  | [] => []
  | kv :: tl =>
    if (kv :: tl).length > maxEntries then evictIfNeeded maxEntries tl
    else kv :: tl

/-- Lookup of the entry stored under a URL key (JavaScript
`store.get(url)`). -/
def findEntry (store : CacheStore Props) (url : String) : Option (CachedPage Props) :=
  match store.find? (fun kv => kv.fst == url) with
  | some kv => some kv.snd
  | none => none

/-- Embedding of `get`: `none` when missing, `none` when expired,
the entry otherwise. -/
def get (ttl : Nat) (store : CacheStore Props) (now : Nat) (url : String) :
    Option (CachedPage Props) :=
  match findEntry store url with
  | none => none
  | some entry => if isExpired ttl now entry then none else some entry

/-- Embedding of `set`: delete the key first so re-insertion moves it
to the end (most recent), then evict while over capacity. -/
def set (maxEntries : Nat) (store : CacheStore Props) (url : String)
    (page : CachedPage Props) : CacheStore Props :=
  evictIfNeeded maxEntries
    ((store.filter (fun kv => !(kv.fst == url))) ++ [(url, page)])

/-- Embedding of `remove`. -/
def remove (store : CacheStore Props) (url : String) : CacheStore Props :=
  store.filter (fun kv => !(kv.fst == url))

/-- Embedding of `clear`. -/
def clear : CacheStore Props := []

/-- Embedding of `getOrStale`: the entry regardless of expiry,
together with the staleness flag. -/
def getOrStale (ttl : Nat) (store : CacheStore Props) (now : Nat) (url : String) :
    Option (CachedPage Props × Bool) :=
  match findEntry store url with
  | none => none
  | some entry => some (entry, isExpired ttl now entry)

/-- Embedding of `invalidateByPattern`: compile the glob with the
cache compiler and delete every matching key. A RegExp construction
error (`none`) propagates as a thrown exception before any deletion,
leaving the store unchanged. -/
def invalidateByPattern (store : CacheStore Props) (pattern : String) :
    CacheStore Props :=
  match patternToRegex pattern.data [] with
  | none => store
  | some atoms => store.filter (fun kv => !(atomsAccept atoms kv.fst.data))

/-- Embedding of `updateProps`: merge new props into an existing entry
and refresh its timestamp, in place; no-op when the key is absent. The
merge itself is opaque over `Props` and passed as `merge`. -/
def updateProps (store : CacheStore Props) (url : String)
    (merge : Props → Props) (now : Nat) : CacheStore Props :=
  store.map fun kv =>
    if kv.fst == url then
      (kv.fst, { kv.snd with props := merge kv.snd.props, timestamp := now })
    else kv

/-- Keys of the store in insertion order. -/
def cacheKeys (store : CacheStore Props) : List String := store.map Prod.fst

end Cache

namespace Cache

variable {Props : Type}

/-- Unfolded form of the eviction loop: it drops exactly the oldest
entries that exceed the capacity. -/
theorem evictIfNeeded_eq_drop (maxEntries : Nat) :
    ∀ s : CacheStore Props,
      evictIfNeeded maxEntries s = s.drop (s.length - maxEntries) := by
  intro s
  induction s with
  | nil => simp [evictIfNeeded]
  | cons a l ih =>
    simp only [evictIfNeeded]
    by_cases h : (a :: l).length > maxEntries
    · rw [if_pos h, ih]
      have hm : maxEntries ≤ l.length := by simp at h; omega
      have harith : (a :: l).length - maxEntries = (l.length - maxEntries) + 1 := by
        simp; omega
      rw [harith]
      simp
    · rw [if_neg h]
      have harith : (a :: l).length - maxEntries = 0 := by simp at h ⊢; omega
      rw [harith]
      simp

theorem length_evictIfNeeded_le (maxEntries : Nat) (s : CacheStore Props) :
    (evictIfNeeded maxEntries s).length ≤ maxEntries := by
  rw [evictIfNeeded_eq_drop]
  simp
  omega

theorem evictIfNeeded_sublist (maxEntries : Nat) (s : CacheStore Props) :
    (evictIfNeeded maxEntries s).Sublist s := by
  rw [evictIfNeeded_eq_drop]
  exact List.drop_sublist _ _

theorem cacheKeys_set_nodup (maxEntries : Nat) (store : CacheStore Props)
    (url : String) (page : CachedPage Props)
    (hnd : (cacheKeys store).Nodup) :
    (cacheKeys (set maxEntries store url page)).Nodup := by
  have hbase : (cacheKeys ((store.filter (fun kv => !(kv.fst == url))) ++ [(url, page)])).Nodup := by
    unfold cacheKeys
    rw [List.map_append]
    apply List.Nodup.append
    · exact hnd.sublist ((List.filter_sublist _).map Prod.fst)
    · simp
    · intro k hk hk2
      simp at hk2
      subst hk2
      simp [List.mem_map, List.mem_filter] at hk
  exact hbase.sublist ((evictIfNeeded_sublist _ _).map Prod.fst)

end Cache

/-- Dropping strictly fewer elements than the length preserves the
last element. -/
theorem getLast?_drop_of_lt {α : Type} :
    ∀ (l : List α) (k : Nat), k < l.length → (l.drop k).getLast? = l.getLast? := by
  intro l
  induction l with
  | nil =>
    intro k h
    simp at h
  | cons a t ih =>
    intro k h
    cases k with
    | zero => rfl
    | succ k2 =>
      rw [List.drop_succ_cons]
      have hk2 : k2 < t.length := by simp at h; omega
      rw [ih k2 hk2]
      cases t with
      | nil => simp at hk2
      | cons b t2 => rw [List.getLast?_cons_cons]

/-- Keys after `updateProps` are unchanged. -/
theorem Cache.cacheKeys_updateProps {Props : Type} (store : CacheStore Props)
    (url : String) (merge : Props → Props) (now : Nat) :
    Cache.cacheKeys (Cache.updateProps store url merge now) =
      Cache.cacheKeys store := by
  unfold Cache.cacheKeys Cache.updateProps
  rw [List.map_map]
  apply List.map_congr_left
  intro kv _
  by_cases h : kv.fst = url
  · simp [h]
  · simp [h]

/-- Concrete page used by the capacity example. -/
def examplePage (u : String) : CachedPage Unit :=
  { props := (), timestamp := 0, url := u, component := "Example" }

/-- Four successive inserts of distinct keys into an empty cache with
`maxEntries = 3`. -/
def exampleFourInserts : CacheStore Unit :=
  Cache.set 3
    (Cache.set 3
      (Cache.set 3
        (Cache.set 3 [] "/page1" (examplePage "/page1"))
        "/page2" (examplePage "/page2"))
      "/page3" (examplePage "/page3"))
    "/page4" (examplePage "/page4")

/-- C5 (confirmed). The cache keeps at most one entry per URL key and
never exceeds `maxEntries` after any operation; `set` removes any
existing entry for the key before appending it at the
most-recently-inserted position, and the eviction loop drops exactly
the oldest entries until the store is within bound. With
`maxEntries = 3`, inserting four distinct keys evicts exactly the
first-inserted key and keeps the fourth retrievable. -/
theorem cache_capacity_eviction {Props : Type} (maxEntries now : Nat)
    (store : CacheStore Props) (url pattern : String) (page : CachedPage Props)
    (merge : Props → Props)
    (hnd : (Cache.cacheKeys store).Nodup) (hlen : store.length ≤ maxEntries) :
    ((Cache.cacheKeys (Cache.set maxEntries store url page)).Nodup ∧
      (Cache.set maxEntries store url page).length ≤ maxEntries) ∧
    (1 ≤ maxEntries →
      (Cache.set maxEntries store url page).getLast? = some (url, page)) ∧
    (∀ s : CacheStore Props,
      Cache.evictIfNeeded maxEntries s = s.drop (s.length - maxEntries)) ∧
    ((Cache.cacheKeys (Cache.remove store url)).Nodup ∧
      (Cache.remove store url).length ≤ maxEntries) ∧
    ((Cache.cacheKeys (Cache.invalidateByPattern store pattern)).Nodup ∧
      (Cache.invalidateByPattern store pattern).length ≤ maxEntries) ∧
    ((Cache.cacheKeys (Cache.updateProps store url merge now)).Nodup ∧
      (Cache.updateProps store url merge now).length ≤ maxEntries) ∧
    (Cache.cacheKeys exampleFourInserts = ["/page2", "/page3", "/page4"] ∧
      Cache.get 300000 exampleFourInserts 0 "/page1" = none ∧
      Cache.get 300000 exampleFourInserts 0 "/page4" =
        some (examplePage "/page4")) := by
  refine ⟨⟨Cache.cacheKeys_set_nodup maxEntries store url page hnd,
      Cache.length_evictIfNeeded_le maxEntries _⟩, ?_, ?_, ?_, ?_, ?_, by decide⟩
  · intro hmax
    unfold Cache.set
    rw [Cache.evictIfNeeded_eq_drop]
    set x : CacheStore Props :=
      (store.filter (fun kv => !(kv.fst == url))) ++ [(url, page)] with hx
    have hxlen : 1 ≤ x.length := by
      rw [hx]
      simp
    have hlt : x.length - maxEntries < x.length := by omega
    rw [getLast?_drop_of_lt x _ hlt, hx]
    simp
  · exact Cache.evictIfNeeded_eq_drop maxEntries
  · constructor
    · exact hnd.sublist ((List.filter_sublist _).map Prod.fst)
    · exact le_trans (List.length_filter_le _ _) hlen
  · unfold Cache.invalidateByPattern
    cases patternToRegex pattern.data [] with
    | none => exact ⟨hnd, hlen⟩
    | some atoms =>
      constructor
      · exact hnd.sublist ((List.filter_sublist _).map Prod.fst)
      · exact le_trans (List.length_filter_le _ _) hlen
  · rw [Cache.cacheKeys_updateProps]
    refine ⟨hnd, ?_⟩
    unfold Cache.updateProps
    rw [List.length_map]
    exact hlen

/-- Witness for C5 at a concrete store within capacity. -/
theorem cache_capacity_eviction_witness :
    (Cache.cacheKeys
      (Cache.set 3 [("/a", examplePage "/a")] "/b" (examplePage "/b"))).Nodup :=
  (cache_capacity_eviction 3 0 [("/a", examplePage "/a")] "/b" "/x*"
    (examplePage "/b") id (by decide) (by decide)).1.1

/-- On patterns with no `?`, the cache glob compiler agrees with the
exclude glob compiler (generalized over the accumulator). -/
theorem patternToRegex_eq_exclude_of_no_question :
    ∀ (l : List Char) (acc : List GlobAtom), '?' ∉ l →
      patternToRegex l acc = some (acc.reverse ++ excludePatternToRegex l) := by
  intro l
  induction l with
  | nil =>
    intro acc _
    simp [patternToRegex, excludePatternToRegex]
  | cons c rest ih =>
    intro acc hq
    have hcq : c ≠ '?' := by
      intro hc
      exact hq (by rw [hc]; exact List.mem_cons_self _ _)
    have hrest : '?' ∉ rest := fun hmem => hq (List.mem_cons_of_mem _ hmem)
    by_cases hstar : c = '*'
    · have h1 : patternToRegex (c :: rest) acc = patternToRegex rest (.star :: acc) := by
        simp [patternToRegex, hstar]
      rw [h1, ih (.star :: acc) hrest]
      simp [excludePatternToRegex, hstar]
    · have h1 : patternToRegex (c :: rest) acc = patternToRegex rest (.lit c :: acc) := by
        simp [patternToRegex, hstar, hcq]
      rw [h1, ih (.lit c :: acc) hrest]
      simp [excludePatternToRegex, hstar, hcq]

/-- Key membership after filtering on a key predicate. -/
theorem Cache.mem_cacheKeys_filter {Props : Type} (store : CacheStore Props)
    (f : String → Bool) (key : String) :
    (key ∈ Cache.cacheKeys (store.filter (fun kv => !(f kv.fst))) ↔
      key ∈ Cache.cacheKeys store ∧ f key = false) := by
  unfold Cache.cacheKeys
  simp only [List.mem_map, List.mem_filter]
  constructor
  · intro ⟨kv, ⟨hmem, hf⟩, he⟩
    subst he
    simp at hf
    exact ⟨⟨kv, hmem, rfl⟩, hf⟩
  · intro ⟨⟨kv, hmem, he⟩, hf⟩
    subst he
    exact ⟨kv, ⟨hmem, by simp [hf]⟩, rfl⟩

/-- Counterexample to C9 as stated: on the pattern `/a?` the two glob
compilers disagree. The exclude compiler reads `?` as "any one
character" and accepts the key `/ab`, while the cache compiler leaves
`?` as a regex quantifier making the preceding `a` optional, so
`invalidateByPattern` does not remove `/ab`. -/
theorem cache_invalidate_exclude_divergence :
    ¬ (∀ (pattern key : String) (store : CacheStore Unit),
        ((key ∈ Cache.cacheKeys store ∧
            key ∉ Cache.cacheKeys (Cache.invalidateByPattern store pattern)) ↔
          (key ∈ Cache.cacheKeys store ∧ excludeGlobAccepts pattern key = true))) := by
  intro h
  have hinst :=
    (h "/a?" "/ab" [("/ab", examplePage "/ab")]).mpr (by decide)
  exact absurd hinst.2 (by decide)

/-- Store used by the C9 amended example. -/
def exampleUsersStore : CacheStore Unit :=
  [("/users/1", examplePage "/users/1"),
   ("/users/2", examplePage "/users/2"),
   ("/about", examplePage "/about")]

/-- C9 (corrected). For glob patterns containing no `?`, the cache
compiles the pattern to the same regex as the matcher's
exclude-pattern compiler, and `invalidateByPattern` removes exactly
the cached keys that compilation accepts; in particular
`invalidateByPattern` with `/users/*` removes `/users/1` and
`/users/2` but not `/about`. Patterns containing `?` diverge, as the
companion counterexample shows. -/
theorem cache_invalidate_matches_exclude {Props : Type} (pattern : String)
    (store : CacheStore Props) (key : String)
    (hq : '?' ∉ pattern.data) :
    ((key ∈ Cache.cacheKeys store ∧
        key ∉ Cache.cacheKeys (Cache.invalidateByPattern store pattern)) ↔
      (key ∈ Cache.cacheKeys store ∧ excludeGlobAccepts pattern key = true)) ∧
    Cache.cacheKeys (Cache.invalidateByPattern exampleUsersStore "/users/*") =
      ["/about"] := by
  refine ⟨?_, by decide⟩
  unfold Cache.invalidateByPattern
  rw [patternToRegex_eq_exclude_of_no_question pattern.data [] hq]
  dsimp only
  rw [List.reverse_nil, List.nil_append]
  rw [Cache.mem_cacheKeys_filter store
    (fun k => atomsAccept (excludePatternToRegex pattern.data) k.data) key]
  unfold excludeGlobAccepts
  constructor
  · intro ⟨hmem, hnot⟩
    refine ⟨hmem, ?_⟩
    by_cases hacc : atomsAccept (excludePatternToRegex pattern.data) key.data = true
    · exact hacc
    · exact absurd ⟨hmem, by simpa using hacc⟩ hnot
  · intro ⟨hmem, hacc⟩
    refine ⟨hmem, ?_⟩
    intro ⟨_, hfalse⟩
    rw [hacc] at hfalse
    cases hfalse

/-- Witness for C9 at a concrete pattern without `?`. -/
theorem cache_invalidate_matches_exclude_witness :
    (("/users/1" ∈ Cache.cacheKeys exampleUsersStore ∧
        "/users/1" ∉ Cache.cacheKeys
          (Cache.invalidateByPattern exampleUsersStore "/users/*")) ↔
      ("/users/1" ∈ Cache.cacheKeys exampleUsersStore ∧
        excludeGlobAccepts "/users/*" "/users/1" = true)) :=
  (cache_invalidate_matches_exclude "/users/*" exampleUsersStore "/users/1"
    (by decide)).1

/-- Expiry test, unfolded to its arithmetic meaning. -/
theorem Cache.isExpired_iff {Props : Type} (ttl now : Nat) (e : CachedPage Props) :
    Cache.isExpired ttl now e = true ↔ now - e.timestamp > ttl :=
  decide_eq_true_iff

/-- Lookup returns `none` exactly when the URL is not among the stored
keys. -/
theorem Cache.findEntry_eq_none_iff {Props : Type} (store : CacheStore Props)
    (url : String) :
    Cache.findEntry store url = none ↔ url ∉ Cache.cacheKeys store := by
  unfold Cache.findEntry Cache.cacheKeys
  cases hf : store.find? (fun kv => kv.fst == url) with
  | none =>
    rw [List.find?_eq_none] at hf
    constructor
    · intro _ hmem
      rw [List.mem_map] at hmem
      obtain ⟨kv, hkv, he⟩ := hmem
      have := hf kv hkv
      rw [he] at this
      simp at this
    · intro _
      rfl
  | some kv =>
    have hmem : kv ∈ store := List.mem_of_find?_eq_some hf
    have heq := List.find?_some hf
    constructor
    · intro habs
      exact absurd habs (by simp)
    · intro habs
      exfalso
      apply habs
      rw [List.mem_map]
      exact ⟨kv, hmem, by simpa using heq⟩

/-- C6 (confirmed). For every URL, `get` returns `none` iff the URL has
no stored entry or the stored entry is stale (`now - storedAt > ttl`),
and otherwise returns the stored entry; `getOrStale` returns `none` iff
the URL has no stored entry, and otherwise returns the stored entry
together with an `isStale` flag that is true exactly when
`now - storedAt > ttl`. -/
theorem cache_get_getOrStale_staleness {Props : Type} (ttl : Nat)
    (store : CacheStore Props) (now : Nat) (url : String) :
    (Cache.get ttl store now url = none ↔
      Cache.findEntry store url = none ∨
        ∃ e, Cache.findEntry store url = some e ∧ now - e.timestamp > ttl) ∧
    (∀ e, Cache.get ttl store now url = some e ↔
      Cache.findEntry store url = some e ∧ ¬ (now - e.timestamp > ttl)) ∧
    (Cache.getOrStale ttl store now url = none ↔
      Cache.findEntry store url = none) ∧
    (∀ e isStale, Cache.getOrStale ttl store now url = some (e, isStale) ↔
      Cache.findEntry store url = some e ∧
        (isStale = true ↔ now - e.timestamp > ttl)) := by
  unfold Cache.get Cache.getOrStale
  cases h : Cache.findEntry store url with
  | none =>
    refine ⟨by simp, ?_, by simp, ?_⟩
    · intro e
      constructor
      · intro habs; cases habs
      · intro ⟨habs, _⟩; cases habs
    · intro e isStale
      constructor
      · intro habs; cases habs
      · intro ⟨habs, _⟩; cases habs
  | some entry =>
    have hexp := Cache.isExpired_iff ttl now entry
    dsimp only
    refine ⟨?_, ?_, by simp, ?_⟩
    · by_cases hstale : now - entry.timestamp > ttl
      · rw [if_pos (hexp.mpr hstale)]
        exact iff_of_true rfl (Or.inr ⟨entry, rfl, hstale⟩)
      · rw [if_neg (fun hb => hstale (hexp.mp hb))]
        constructor
        · intro habs
          exact absurd habs (by simp)
        · intro hcase
          rcases hcase with habs | ⟨e, he, hst⟩
          · exact absurd habs (by simp)
          · rw [Option.some_inj] at he
            subst he
            exact absurd hst hstale
    · intro e
      by_cases hstale : now - entry.timestamp > ttl
      · rw [if_pos (hexp.mpr hstale)]
        constructor
        · intro habs
          exact absurd habs (by simp)
        · intro ⟨he, hfresh⟩
          rw [Option.some_inj] at he
          subst he
          exact absurd hstale hfresh
      · rw [if_neg (fun hb => hstale (hexp.mp hb))]
        constructor
        · intro he
          rw [Option.some_inj] at he
          subst he
          exact ⟨rfl, hstale⟩
        · intro ⟨he, _⟩
          exact he
    · intro e isStale
      constructor
      · intro he
        rw [Option.some_inj, Prod.mk.injEq] at he
        obtain ⟨h1, h2⟩ := he
        subst h1
        refine ⟨rfl, ?_⟩
        rw [← h2]
        exact hexp
      · intro ⟨he, hst⟩
        rw [Option.some_inj] at he
        subst he
        rw [Option.some_inj, Prod.mk.injEq]
        refine ⟨rfl, ?_⟩
        cases hb : isStale with
        | true => exact hexp.mpr (hst.mp hb)
        | false =>
          rw [Bool.eq_false_iff]
          intro hbad
          rw [hst.mpr (hexp.mp hbad)] at hb
          cases hb

/-! ## Preflight evaluator (preflight.ts)

The verdict table `_data` is an association list keyed by guard
(middleware) name; `update` replaces it wholesale. `Date.now()` in
`check` appears as `now` in epoch seconds. In the source the expiry
test reads `result.expiresAt && now >= result.expiresAt`: an absent
`expiresAt` and the falsy value `0` both skip the test. -/

/-- Embedding of the per-guard `PreflightResult` record. -/
structure PreflightResult where
  pass : Bool
  expiresAt : Option Nat
deriving DecidableEq, Repr

namespace Preflight

/-- Expiry clause of the check: `result.expiresAt && now >= result.expiresAt`
with JavaScript falsiness of `0`. -/
def expiryFails (now : Nat) (v : PreflightResult) : Bool :=
  match v.expiresAt with
  | none => false
  | some e => (e != 0) && decide (now ≥ e)

/-- Loop body of `check`, with the `hasAnyData` accumulator explicit. -/
def checkGo (data : List (String × PreflightResult)) (now : Nat) :
    List String → Bool → Option Bool
  | [], hasAnyData => if hasAnyData then some true else none
  | mw :: rest, hasAnyData =>
    match data.lookup mw with
    | none => checkGo data now rest hasAnyData
    | some result =>
      if result.pass = false then some false
      else if expiryFails now result then some false
      else checkGo data now rest true

/-- Embedding of `createPreflight().check`. -/
def check (data : List (String × PreflightResult)) (now : Nat)
    (middleware : List String) : Option Bool :=
  checkGo data now middleware false

/-- Failure test for one guard name: a recorded verdict that fails. -/
def lookupFails (data : List (String × PreflightResult)) (now : Nat)
    (mw : String) : Bool :=
  match data.lookup mw with
  | some v => !v.pass || expiryFails now v
  | none => false

/-- Knownness test for one guard name. -/
def lookupKnown (data : List (String × PreflightResult)) (mw : String) : Bool :=
  (data.lookup mw).isSome

theorem checkGo_eq_some_false_iff (data : List (String × PreflightResult))
    (now : Nat) :
    ∀ (mws : List String) (b : Bool),
      (checkGo data now mws b = some false ↔
        mws.any (lookupFails data now) = true) := by
  intro mws
  induction mws with
  | nil =>
    intro b
    cases b <;> simp [checkGo]
  | cons mw rest ih =>
    intro b
    simp only [checkGo, List.any_cons]
    cases hl : data.lookup mw with
    | none =>
      rw [ih b]
      simp [lookupFails, hl]
    | some v =>
      dsimp only
      by_cases hp : v.pass = false
      · rw [if_pos hp]
        simp [lookupFails, hl, hp]
      · rw [if_neg hp]
        by_cases he : expiryFails now v = true
        · rw [if_pos he]
          simp [lookupFails, hl, he]
        · rw [if_neg he]
          rw [ih true]
          have hpass : v.pass = true := by
            cases hv : v.pass
            · exact absurd hv hp
            · rfl
          simp [lookupFails, hl, hpass, he]

theorem checkGo_eq_none_iff (data : List (String × PreflightResult))
    (now : Nat) :
    ∀ (mws : List String) (b : Bool),
      (checkGo data now mws b = none ↔
        b = false ∧ mws.all (fun mw => !lookupKnown data mw) = true) := by
  intro mws
  induction mws with
  | nil =>
    intro b
    cases b <;> simp [checkGo]
  | cons mw rest ih =>
    intro b
    simp only [checkGo, List.all_cons]
    cases hl : data.lookup mw with
    | none =>
      rw [ih b]
      simp [lookupKnown, hl]
    | some v =>
      dsimp only
      by_cases hp : v.pass = false
      · rw [if_pos hp]
        simp [lookupKnown, hl]
      · rw [if_neg hp]
        by_cases he : expiryFails now v = true
        · rw [if_pos he]
          simp [lookupKnown, hl]
        · rw [if_neg he]
          rw [ih true]
          simp [lookupKnown, hl]

theorem checkGo_eq_some_true_iff (data : List (String × PreflightResult))
    (now : Nat) :
    ∀ (mws : List String) (b : Bool),
      (checkGo data now mws b = some true ↔
        mws.all (fun mw => !lookupFails data now mw) = true ∧
          (b = true ∨ mws.any (lookupKnown data) = true)) := by
  intro mws
  induction mws with
  | nil =>
    intro b
    cases b <;> simp [checkGo]
  | cons mw rest ih =>
    intro b
    simp only [checkGo, List.all_cons, List.any_cons]
    cases hl : data.lookup mw with
    | none =>
      rw [ih b]
      simp [lookupFails, lookupKnown, hl]
    | some v =>
      dsimp only
      by_cases hp : v.pass = false
      · rw [if_pos hp]
        simp [lookupFails, hl, hp]
      · rw [if_neg hp]
        by_cases he : expiryFails now v = true
        · rw [if_pos he]
          simp [lookupFails, hl, he]
        · rw [if_neg he]
          rw [ih true]
          have hpass : v.pass = true := by
            cases hv : v.pass
            · exact absurd hv hp
            · rfl
          have hef : expiryFails now v = false := by
            cases hv : expiryFails now v
            · rfl
            · exact absurd hv he
          simp [lookupFails, lookupKnown, hl, hpass, hef]

/-- Failure of one guard, unfolded to the arithmetic meaning of the
amended claim. -/
theorem lookupFails_eq_true_iff (data : List (String × PreflightResult))
    (now : Nat) (mw : String) :
    lookupFails data now mw = true ↔
      ∃ v, data.lookup mw = some v ∧
        (v.pass = false ∨ ∃ e, v.expiresAt = some e ∧ e ≠ 0 ∧ e ≤ now) := by
  unfold lookupFails
  cases hl : data.lookup mw with
  | none => simp
  | some v =>
    simp only [Option.some_inj]
    constructor
    · intro hf
      refine ⟨v, rfl, ?_⟩
      rw [Bool.or_eq_true, Bool.not_eq_true'] at hf
      rcases hf with hp | he
      · exact Or.inl hp
      · unfold expiryFails at he
        cases hea : v.expiresAt with
        | none => rw [hea] at he; cases he
        | some e =>
          rw [hea] at he
          rw [Bool.and_eq_true, bne_iff_ne, decide_eq_true_iff] at he
          exact Or.inr ⟨e, rfl, he.1, he.2⟩
    · intro ⟨v2, hv2, hcase⟩
      subst hv2
      rw [Bool.or_eq_true, Bool.not_eq_true']
      rcases hcase with hp | ⟨e, hea, hne, hle⟩
      · exact Or.inl hp
      · refine Or.inr ?_
        unfold expiryFails
        rw [hea, Bool.and_eq_true, bne_iff_ne, decide_eq_true_iff]
        exact ⟨hne, hle⟩

end Preflight

/-- Counterexample to C7 as stated: a verdict whose `expiresAt` equals
the current second (not strictly in the past) with `pass = true` still
makes `check` return `false`, because the source compares with
`now >= expiresAt`. -/
theorem preflight_strict_past_counterexample :
    ¬ (Preflight.check [("auth", ⟨true, some 100⟩)] 100 ["auth"] = some false →
        ∃ mw ∈ ["auth"], ∃ v,
          (List.lookup mw [("auth", (⟨true, some 100⟩ : PreflightResult))]) =
              some v ∧
            (v.pass = false ∨ ∃ e, v.expiresAt = some e ∧ e < 100)) := by
  intro h
  have hex := h (by decide)
  rcases hex with ⟨mw, hmw, v, hv, hbad⟩
  have hmw2 : mw = "auth" := by
    rcases List.mem_singleton.mp hmw with h2
    exact h2
  subst hmw2
  have hveq : v = (⟨true, some 100⟩ : PreflightResult) := by
    rw [show (List.lookup "auth"
        [("auth", (⟨true, some 100⟩ : PreflightResult))]) =
        some (⟨true, some 100⟩ : PreflightResult) from by rfl] at hv
    exact (Option.some_inj.mp hv).symm
  subst hveq
  rcases hbad with hpass | ⟨e, he, hlt⟩
  · cases hpass
  · have he2 : e = 100 := (Option.some_inj.mp he.symm)
    subst he2
    exact absurd hlt (by omega)

/-- C7 (corrected). With the expiry condition amended from "expiresAt
strictly in the past" to "a nonzero expiresAt at or before the current
second" (the source tests `now >= expiresAt` and skips a falsy `0`):
`check` returns `false` iff some guard in the list has a recorded
verdict that fails; returns `true` iff at least one guard is recorded
and no recorded one fails; returns `none` iff no guard in the list has
a recorded verdict; and `check` of the empty list is always `none`. -/
theorem preflight_check_trichotomy (data : List (String × PreflightResult))
    (now : Nat) (middleware : List String) :
    (Preflight.check data now middleware = some false ↔
      ∃ mw ∈ middleware, ∃ v, data.lookup mw = some v ∧
        (v.pass = false ∨ ∃ e, v.expiresAt = some e ∧ e ≠ 0 ∧ e ≤ now)) ∧
    (Preflight.check data now middleware = some true ↔
      ((∃ mw ∈ middleware, (data.lookup mw).isSome = true) ∧
        ∀ mw ∈ middleware, ∀ v, data.lookup mw = some v →
          ¬(v.pass = false ∨ ∃ e, v.expiresAt = some e ∧ e ≠ 0 ∧ e ≤ now))) ∧
    (Preflight.check data now middleware = none ↔
      ∀ mw ∈ middleware, data.lookup mw = none) ∧
    Preflight.check data now [] = none := by
  refine ⟨?_, ?_, ?_, by rfl⟩
  · rw [Preflight.check, Preflight.checkGo_eq_some_false_iff data now middleware false]
    rw [List.any_eq_true]
    constructor
    · intro ⟨mw, hmw, hf⟩
      exact ⟨mw, hmw, (Preflight.lookupFails_eq_true_iff data now mw).mp hf⟩
    · intro ⟨mw, hmw, hf⟩
      exact ⟨mw, hmw, (Preflight.lookupFails_eq_true_iff data now mw).mpr hf⟩
  · rw [Preflight.check, Preflight.checkGo_eq_some_true_iff data now middleware false]
    rw [List.all_eq_true, List.any_eq_true]
    constructor
    · intro ⟨hall, hany⟩
      rcases hany with hb | ⟨mw, hmw, hk⟩
      · cases hb
      · refine ⟨⟨mw, hmw, hk⟩, ?_⟩
        intro mw2 hmw2 v hv hbad
        have := hall mw2 hmw2
        rw [Bool.not_eq_true'] at this
        have hfail : Preflight.lookupFails data now mw2 = true :=
          (Preflight.lookupFails_eq_true_iff data now mw2).mpr ⟨v, hv, hbad⟩
        rw [hfail] at this
        cases this
    · intro ⟨⟨mw, hmw, hk⟩, hnone⟩
      refine ⟨?_, Or.inr ⟨mw, hmw, hk⟩⟩
      intro mw2 hmw2
      rw [Bool.not_eq_true']
      cases hf : Preflight.lookupFails data now mw2 with
      | false => rfl
      | true =>
        obtain ⟨v, hv, hbad⟩ :=
          (Preflight.lookupFails_eq_true_iff data now mw2).mp hf
        exact absurd hbad (hnone mw2 hmw2 v hv)
  · rw [Preflight.check, Preflight.checkGo_eq_none_iff data now middleware false]
    rw [List.all_eq_true]
    constructor
    · intro ⟨_, hall⟩ mw hmw
      have hk := hall mw hmw
      rw [Bool.not_eq_true'] at hk
      unfold Preflight.lookupKnown at hk
      cases hopt : List.lookup mw data with
      | none => rfl
      | some v =>
        rw [hopt] at hk
        simp at hk
    · intro hall
      refine ⟨rfl, ?_⟩
      intro mw hmw
      rw [Bool.not_eq_true']
      unfold Preflight.lookupKnown
      rw [hall mw hmw]
      rfl

/-! ## Route matcher (matcher.ts)

Route patterns are compiled to segment matchers mirroring
`compilePattern`; the compiled regex semantics (static segment,
`/([^/]+)` for `:name`, `(?:/([^/]+))?` for `:name?`, `(?:/.*)?` for a
wildcard, and the optional trailing slash) is given by a backtracking
acceptance function. Parameter-name extraction is not modelled: no
claim mentions extracted parameters. The `fuel` arguments are
evaluation bounds strictly above the recursion depth (every call
decreases `2 * (segments + chars) + mode`), so the entry points below
compute the exact compiled-regex acceptance. -/

/-- Embedding of the `RouteParameter` record. -/
structure RouteParameter where
  name : String
  required : Bool
deriving DecidableEq, Repr

/-- Embedding of the `ManifestRoute` record. -/
structure ManifestRoute where
  pattern : String
  component : String
  middleware : List String
  parameters : List RouteParameter
deriving DecidableEq, Repr

namespace Matcher

/-- Split on `/` separators, keeping empty pieces, like JavaScript
`split('/')`. -/
def splitOnSlash : List Char → List Char → List (List Char)
  | [], acc => [acc.reverse]
  | c :: rest, acc =>
    if c = '/' then acc.reverse :: splitOnSlash rest []
    else splitOnSlash rest (c :: acc)

/-- Segment split used by both `calcSpecificity` and `compilePattern`:
`pattern.split('/').filter(Boolean)`. -/
def splitSegments (pattern : String) : List (List Char) :=
  (splitOnSlash pattern.data []).filter (fun s => s ≠ [])

/-- Specificity contribution of one segment. -/
def segScore (seg : List Char) : Nat :=
  if seg = ['*'] ∨ seg = ['*', '*'] then 1
  else if seg.head? = some ':' then 2
  else 3

/-- Embedding of `calcSpecificity`: the scoring loop over segments. -/
def calcSpecificity (pattern : String) : Nat :=
  (splitSegments pattern).foldl (fun score seg => score + segScore seg) 0

/-- One compiled pattern segment. -/
inductive PSeg where
  | static : List Char → PSeg
  | param : PSeg
  | optParam : PSeg
  | wild : PSeg
deriving DecidableEq, Repr

/-- Embedding of `compilePattern` (per-segment shape only; capture
names are dropped). -/
def compilePattern (pattern : String) : List PSeg :=
  (splitSegments pattern).map fun seg =>
    if seg = ['*'] ∨ seg = ['*', '*'] then .wild
    else if seg.head? = some ':' then
      (if seg.getLast? = some '?' then .optParam else .param)
    else .static seg

mutual

/-- Acceptance of the compiled segment regex on a path, in segment
mode. The empty segment list accepts `""` or `"/"` (the `/?$` tail). -/
def segsGo : Nat → List PSeg → List Char → Bool
  | 0, _, _ => false
  | _ + 1, [], cs =>
    match cs with
    | [] => true
    | [c] => c == '/'
    | _ => false
  | fuel + 1, .static s :: ss, cs =>
    match cs with
    | '/' :: rest => s.isPrefixOf rest && segsGo fuel ss (rest.drop s.length)
    | _ => false
  | fuel + 1, .param :: ss, cs =>
    match cs with
    | '/' :: c :: rest => (c != '/') && paramGo fuel ss rest
    | _ => false
  | fuel + 1, .optParam :: ss, cs =>
    segsGo fuel ss cs ||
      (match cs with
       | '/' :: c :: rest => (c != '/') && paramGo fuel ss rest
       | _ => false)
  | fuel + 1, .wild :: ss, cs =>
    segsGo fuel ss cs ||
      (match cs with
       | '/' :: rest => suffixGo fuel ss rest
       | _ => false)

/-- Continuation of a `[^/]+` capture after at least one consumed
character: stop here, or consume one more non-slash character. -/
def paramGo : Nat → List PSeg → List Char → Bool
  | 0, _, _ => false
  | fuel + 1, ss, cs =>
    segsGo fuel ss cs ||
      (match cs with
       | c :: rest => (c != '/') && paramGo fuel ss rest
       | [] => false)

/-- Continuation of `.*`: consume any further prefix of the path. -/
def suffixGo : Nat → List PSeg → List Char → Bool
  | 0, _, _ => false
  | fuel + 1, ss, cs =>
    segsGo fuel ss cs ||
      (match cs with
       | _ :: rest => suffixGo fuel ss rest
       | [] => false)

end

/-- Acceptance of a compiled route on a normalized path. -/
def segsAccept (ss : List PSeg) (cs : List Char) : Bool :=
  segsGo (2 * (ss.length + cs.length) + 2) ss cs

/-- Prefix of a character list before the first occurrence of a stop
character (JavaScript `s.split(stop)[0]`). -/
def stripAfter (stop : Char) (cs : List Char) : List Char :=
  cs.takeWhile (fun c => c != stop)

/-- Value of a hexadecimal digit. -/
def hexVal (c : Char) : Option Nat :=
  if '0' ≤ c ∧ c ≤ '9' then some (c.toNat - '0'.toNat)
  else if 'a' ≤ c ∧ c ≤ 'f' then some (c.toNat - 'a'.toNat + 10)
  else if 'A' ≤ c ∧ c ≤ 'F' then some (c.toNat - 'A'.toNat + 10)
  else none

/-- Characters whose escape sequences `decodeURI` leaves encoded. -/
def uriReserved (c : Char) : Bool :=
  c ∈ [';', '/', '?', ':', '@', '&', '=', '+', '$', ',', '#']

/-- Model of `decodeURI` on the single-byte range: `%XX` pairs below
`0x80` decode to their character unless reserved (then the escape text
is kept); a malformed escape is a decode error (`none`); multi-byte
sequences (lead byte at or above `0x80`) are conservatively treated as
decode errors — no claim exercises them, and on error the source falls
back to the undecoded path. -/
def decodeURIChars : List Char → Option (List Char)
  | [] => some []
  | '%' :: h1 :: h2 :: rest =>
    (match hexVal h1, hexVal h2 with
     | some v1, some v2 =>
       if 16 * v1 + v2 ≥ 128 then none
       else if uriReserved (Char.ofNat (16 * v1 + v2)) then
         (decodeURIChars rest).map (fun tl => '%' :: h1 :: h2 :: tl)
       else
         (decodeURIChars rest).map (fun tl => Char.ofNat (16 * v1 + v2) :: tl)
     | _, _ => none)
  | '%' :: _ => none
  | c :: rest => (decodeURIChars rest).map (fun tl => c :: tl)

/-- Embedding of `normalizePath`: strip hash, strip query, decode; a
decode error keeps the undecoded path. -/
def normalizePath (url : String) : String :=
  let path := stripAfter '?' (stripAfter '#' url.data)
  match decodeURIChars path with
  | some cs => String.mk cs
  | none => String.mk path

/-- One compiled route. -/
structure CompiledRoute where
  route : ManifestRoute
  segs : List PSeg
  specificity : Nat
deriving DecidableEq, Repr

/-- Stable insertion of a compiled route into a
descending-by-specificity list: the route goes after every existing
entry of equal or higher specificity, matching the stable
descending-comparator sort of the source. -/
def insertDesc (cr : CompiledRoute) : List CompiledRoute → List CompiledRoute
  | [] => [cr]
  | c2 :: rest =>
    if c2.specificity < cr.specificity then cr :: c2 :: rest
    else c2 :: insertDesc cr rest

/-- Stable sort, descending by specificity. -/
def sortDesc : List CompiledRoute → List CompiledRoute
  | [] => []
  | cr :: rest => insertDesc cr (sortDesc rest)

/-- Compilation of one route entry: compiled segments plus
specificity. -/
def compileOne (r : ManifestRoute) : CompiledRoute :=
  { route := r, segs := compilePattern r.pattern,
    specificity := calcSpecificity r.pattern }

/-- Compilation pipeline of `createMatcher`: compile every route, then
sort descending by specificity. -/
def compileRoutes (routes : List ManifestRoute) : List CompiledRoute :=
  sortDesc (routes.map compileOne)

/-- Embedding of the `match` result (parameter map omitted; the `url`
field carries the unnormalized input, as in the source). -/
structure MatchResult where
  route : ManifestRoute
  url : String
deriving DecidableEq, Repr

/-- First compiled route accepting the path, in list order. -/
def findFirst : List CompiledRoute → List Char → Option ManifestRoute
  | [], _ => none
  | cr :: rest, path =>
    if segsAccept cr.segs path then some cr.route else findFirst rest path

/-- Embedding of `createMatcher(...).match`. -/
def matchUrl (routes : List ManifestRoute) (url : String) : Option MatchResult :=
  match findFirst (compileRoutes routes) (normalizePath url).data with
  | some r => some { route := r, url := url }
  | none => none

/-- Embedding of `createMatcher(...).isExcluded`. -/
def isExcluded (excludes : List String) (url : String) : Bool :=
  excludes.any fun p =>
    atomsAccept (excludePatternToRegex p.data) (normalizePath url).data

end Matcher

namespace Matcher

/-- Folding score additions equals adding the sum of mapped scores. -/
theorem foldl_add_eq_sum {α : Type} (f : α → Nat) :
    ∀ (l : List α) (a : Nat),
      l.foldl (fun sc s => sc + f s) a = a + (l.map f).sum := by
  intro l
  induction l with
  | nil =>
    intro a
    simp
  | cons s rest ih =>
    intro a
    rw [List.foldl_cons, ih (a + f s)]
    simp
    omega

/-- Descending-specificity order between compiled routes. -/
def SpecGE (a b : CompiledRoute) : Prop := b.specificity ≤ a.specificity

theorem mem_insertDesc (cr x : CompiledRoute) :
    ∀ l : List CompiledRoute, x ∈ insertDesc cr l ↔ x = cr ∨ x ∈ l := by
  intro l
  induction l with
  | nil => simp [insertDesc]
  | cons c2 rest ih =>
    unfold insertDesc
    by_cases h : c2.specificity < cr.specificity
    · rw [if_pos h]
      simp
    · rw [if_neg h]
      simp [ih]
      tauto

theorem pairwise_insertDesc (cr : CompiledRoute) :
    ∀ l : List CompiledRoute, l.Pairwise SpecGE →
      (insertDesc cr l).Pairwise SpecGE := by
  intro l
  induction l with
  | nil =>
    intro _
    simp [insertDesc, List.pairwise_singleton]
  | cons c2 rest ih =>
    intro hp
    rw [List.pairwise_cons] at hp
    obtain ⟨hhead, htail⟩ := hp
    unfold insertDesc
    by_cases h : c2.specificity < cr.specificity
    · rw [if_pos h]
      rw [List.pairwise_cons]
      constructor
      · intro x hx
        rcases List.mem_cons.mp hx with he | hm
        · subst he
          exact le_of_lt h
        · exact le_trans (hhead x hm) (le_of_lt h)
      · rw [List.pairwise_cons]
        exact ⟨hhead, htail⟩
    · rw [if_neg h]
      rw [List.pairwise_cons]
      constructor
      · intro x hx
        rcases (mem_insertDesc cr x rest).mp hx with he | hm
        · subst he
          exact le_of_not_lt h
        · exact hhead x hm
      · exact ih htail

theorem pairwise_sortDesc :
    ∀ l : List CompiledRoute, (sortDesc l).Pairwise SpecGE := by
  intro l
  induction l with
  | nil => simp [sortDesc]
  | cons cr rest ih => exact pairwise_insertDesc cr (sortDesc rest) ih

theorem mem_sortDesc (x : CompiledRoute) :
    ∀ l : List CompiledRoute, x ∈ sortDesc l ↔ x ∈ l := by
  intro l
  induction l with
  | nil => simp [sortDesc]
  | cons cr rest ih =>
    unfold sortDesc
    rw [mem_insertDesc, ih]
    simp

/-- Membership in the compiled route list. -/
theorem mem_compileRoutes (routes : List ManifestRoute) (cr : CompiledRoute) :
    cr ∈ compileRoutes routes ↔ ∃ r ∈ routes, cr = compileOne r := by
  unfold compileRoutes
  rw [mem_sortDesc, List.mem_map]
  constructor
  · intro ⟨r, hr, he⟩
    exact ⟨r, hr, he.symm⟩
  · intro ⟨r, hr, he⟩
    exact ⟨r, hr, he.symm⟩

theorem findFirst_eq_none_iff :
    ∀ (l : List CompiledRoute) (path : List Char),
      findFirst l path = none ↔ ∀ cr ∈ l, segsAccept cr.segs path = false := by
  intro l
  induction l with
  | nil =>
    intro path
    simp [findFirst]
  | cons cr rest ih =>
    intro path
    unfold findFirst
    by_cases h : segsAccept cr.segs path = true
    · rw [if_pos h]
      simp [h]
    · rw [if_neg h]
      rw [ih path]
      have hf : segsAccept cr.segs path = false := by
        cases hv : segsAccept cr.segs path
        · rfl
        · exact absurd hv h
      simp [hf]

theorem findFirst_spec :
    ∀ (l : List CompiledRoute) (path : List Char) (r : ManifestRoute),
      l.Pairwise SpecGE → findFirst l path = some r →
      ∃ cr ∈ l, cr.route = r ∧ segsAccept cr.segs path = true ∧
        ∀ cr2 ∈ l, segsAccept cr2.segs path = true →
          cr2.specificity ≤ cr.specificity := by
  intro l
  induction l with
  | nil =>
    intro path r _ hf
    simp [findFirst] at hf
  | cons cr rest ih =>
    intro path r hp hf
    rw [List.pairwise_cons] at hp
    obtain ⟨hhead, htail⟩ := hp
    unfold findFirst at hf
    by_cases h : segsAccept cr.segs path = true
    · rw [if_pos h, Option.some_inj] at hf
      refine ⟨cr, List.mem_cons_self cr rest, hf, h, ?_⟩
      intro cr2 hcr2 _
      rcases List.mem_cons.mp hcr2 with he | hm
      · subst he
        exact le_refl _
      · exact hhead cr2 hm
    · rw [if_neg h] at hf
      obtain ⟨cr3, hcr3, hroute, hacc, hmax⟩ := ih path r htail hf
      refine ⟨cr3, List.mem_cons_of_mem cr hcr3, hroute, hacc, ?_⟩
      intro cr2 hcr2 hacc2
      rcases List.mem_cons.mp hcr2 with he | hm
      · subst he
        exact absurd hacc2 h
      · exact hmax cr2 hm hacc2

end Matcher

/-- Route `/users/:id` of the tie-break examples. -/
def exampleIdRoute : ManifestRoute :=
  { pattern := "/users/:id", component := "Users/Show",
    middleware := [], parameters := [] }

/-- Route `/users/create` of the tie-break examples. -/
def exampleCreateRoute : ManifestRoute :=
  { pattern := "/users/create", component := "Users/Create",
    middleware := [], parameters := [] }

/-- Route `/users/create/:x?` — an entry with specificity 8 that also
structurally matches `/users/create`. -/
def exampleOptRoute : ManifestRoute :=
  { pattern := "/users/create/:x?", component := "X",
    middleware := [], parameters := [] }

/-- A route table containing both `/users/:id` and `/users/create`,
plus the higher-specificity `/users/create/:x?`. -/
def exampleTable3 : List ManifestRoute :=
  [exampleIdRoute, exampleCreateRoute, exampleOptRoute]

/-- Counterexample to C8 as stated: in a route table containing both
`/users/:id` and `/users/create`, but also `/users/create/:x?`
(specificity 8, which also structurally matches `/users/create`),
`match` returns the `/users/create/:x?` entry, not the `/users/create`
entry. -/
theorem matcher_tiebreak_counterexample :
    ¬ (∀ (table : List ManifestRoute) (c : ManifestRoute),
        c ∈ table → c.pattern = "/users/create" →
        (∃ rid ∈ table, rid.pattern = "/users/:id") →
        Matcher.matchUrl table "/users/create" =
          some { route := c, url := "/users/create" }) := by
  intro h
  have hinst := h exampleTable3 exampleCreateRoute (by decide) (by decide)
    (by decide)
  exact absurd hinst (by decide)

/-- C8 (corrected). The specificity of a pattern is the sum over its
segments of 3 per static, 2 per parameter and 1 per wildcard segment;
`match` tests compiled routes in descending specificity order and
returns the first structural match, so a returned route has maximal
specificity among the structurally matching ones, and `match` returns
`none` exactly when no route matches. The tie-break conclusion is
amended with the hypothesis the counterexample forces: in a table
containing `/users/create` where no other entry structurally matching
`/users/create` reaches specificity 6, `match('/users/create')`
returns the `/users/create` entry — in particular in the two-route
table of the claim, in either order. -/
theorem matcher_specificity_order (routes : List ManifestRoute)
    (url : String) (p : String) :
    (Matcher.calcSpecificity p =
      ((Matcher.splitSegments p).map (fun seg =>
        if seg = ['*'] ∨ seg = ['*', '*'] then 1
        else if seg.head? = some ':' then 2 else 3)).sum) ∧
    (Matcher.matchUrl routes url = none ↔
      ∀ r ∈ routes, Matcher.segsAccept (Matcher.compilePattern r.pattern)
        (Matcher.normalizePath url).data = false) ∧
    (∀ res, Matcher.matchUrl routes url = some res →
      res.url = url ∧ res.route ∈ routes ∧
      Matcher.segsAccept (Matcher.compilePattern res.route.pattern)
        (Matcher.normalizePath url).data = true ∧
      ∀ r2 ∈ routes,
        Matcher.segsAccept (Matcher.compilePattern r2.pattern)
          (Matcher.normalizePath url).data = true →
        Matcher.calcSpecificity r2.pattern ≤
          Matcher.calcSpecificity res.route.pattern) ∧
    (∀ (table : List ManifestRoute) (c : ManifestRoute),
      c ∈ table → c.pattern = "/users/create" →
      (∃ rid ∈ table, rid.pattern = "/users/:id") →
      (∀ r2 ∈ table, r2 ≠ c →
        Matcher.segsAccept (Matcher.compilePattern r2.pattern)
          (Matcher.normalizePath "/users/create").data = true →
        Matcher.calcSpecificity r2.pattern < 6) →
      Matcher.matchUrl table "/users/create" =
        some { route := c, url := "/users/create" }) ∧
    (Matcher.matchUrl [exampleIdRoute, exampleCreateRoute] "/users/create" =
        some { route := exampleCreateRoute, url := "/users/create" } ∧
      Matcher.matchUrl [exampleCreateRoute, exampleIdRoute] "/users/create" =
        some { route := exampleCreateRoute, url := "/users/create" }) := by
  have hmatch_none : ∀ (table : List ManifestRoute) (u : String),
      (Matcher.matchUrl table u = none ↔
        ∀ r ∈ table, Matcher.segsAccept (Matcher.compilePattern r.pattern)
          (Matcher.normalizePath u).data = false) := by
    intro table u
    unfold Matcher.matchUrl
    cases hf : Matcher.findFirst (Matcher.compileRoutes table)
        (Matcher.normalizePath u).data with
    | some r =>
      dsimp only
      constructor
      · intro habs
        exact absurd habs (by simp)
      · intro hall
        obtain ⟨cr, hcr, _, hacc, _⟩ :=
          Matcher.findFirst_spec (Matcher.compileRoutes table)
            (Matcher.normalizePath u).data r
            (Matcher.pairwise_sortDesc _) hf
        obtain ⟨r2, hr2, he⟩ := (Matcher.mem_compileRoutes table cr).mp hcr
        subst he
        simp only [Matcher.compileOne] at hacc
        have := hall r2 hr2
        rw [this] at hacc
        cases hacc
    | none =>
      dsimp only
      rw [Matcher.findFirst_eq_none_iff] at hf
      constructor
      · intro _ r hr
        have hcr := hf (Matcher.compileOne r)
          ((Matcher.mem_compileRoutes table _).mpr ⟨r, hr, rfl⟩)
        exact hcr
      · intro _
        rfl
  have hmatch_some : ∀ (table : List ManifestRoute) (u : String) (res : Matcher.MatchResult),
      Matcher.matchUrl table u = some res →
      res.url = u ∧ res.route ∈ table ∧
      Matcher.segsAccept (Matcher.compilePattern res.route.pattern)
        (Matcher.normalizePath u).data = true ∧
      ∀ r2 ∈ table,
        Matcher.segsAccept (Matcher.compilePattern r2.pattern)
          (Matcher.normalizePath u).data = true →
        Matcher.calcSpecificity r2.pattern ≤
          Matcher.calcSpecificity res.route.pattern := by
    intro table u res hm
    unfold Matcher.matchUrl at hm
    cases hf : Matcher.findFirst (Matcher.compileRoutes table)
        (Matcher.normalizePath u).data with
    | none =>
      rw [hf] at hm
      cases hm
    | some r =>
      rw [hf] at hm
      dsimp only at hm
      rw [Option.some_inj] at hm
      subst hm
      obtain ⟨cr, hcr, hroute, hacc, hmax⟩ :=
        Matcher.findFirst_spec (Matcher.compileRoutes table)
          (Matcher.normalizePath u).data r
          (Matcher.pairwise_sortDesc _) hf
      obtain ⟨r0, hr0, he⟩ := (Matcher.mem_compileRoutes table cr).mp hcr
      subst he
      simp only [Matcher.compileOne] at hroute hacc hmax
      subst hroute
      refine ⟨rfl, hr0, hacc, ?_⟩
      intro r2 hr2 hacc2
      have := hmax (Matcher.compileOne r2)
        ((Matcher.mem_compileRoutes table _).mpr ⟨r2, hr2, rfl⟩) hacc2
      exact this
  refine ⟨?_, hmatch_none routes url, hmatch_some routes url, ?_, by decide, by decide⟩
  · unfold Matcher.calcSpecificity
    rw [Matcher.foldl_add_eq_sum, Nat.zero_add]
    apply congrArg
    apply List.map_congr_left
    intro seg _
    rfl
  · intro table c hc hcp hid hother
    have haccc : Matcher.segsAccept (Matcher.compilePattern c.pattern)
        (Matcher.normalizePath "/users/create").data = true := by
      rw [hcp]
      decide
    have hspecc : Matcher.calcSpecificity c.pattern = 6 := by
      rw [hcp]
      decide
    cases hm : Matcher.matchUrl table "/users/create" with
    | none =>
      rw [hmatch_none table "/users/create"] at hm
      have := hm c hc
      rw [this] at haccc
      cases haccc
    | some res =>
      obtain ⟨hurl, hmem, hacc, hmax⟩ := hmatch_some table "/users/create" res hm
      have hge : 6 ≤ Matcher.calcSpecificity res.route.pattern := by
        rw [← hspecc]
        exact hmax c hc haccc
      by_cases heq : res.route = c
      · cases res with
        | mk rte u0 =>
          dsimp only at heq hurl
          subst heq
          subst hurl
          rfl
      · have := hother res.route hmem heq hacc
        omega

/-- Witness for C8: the tie-break part applied to the two-route table
of the claim. -/
theorem matcher_specificity_order_witness :
    Matcher.matchUrl [exampleIdRoute, exampleCreateRoute] "/users/create" =
      some { route := exampleCreateRoute, url := "/users/create" } :=
  (matcher_specificity_order [] "" "").2.2.2.1
    [exampleIdRoute, exampleCreateRoute] exampleCreateRoute
    (by decide) (by decide) (by decide) (by decide)

/-! ## Navigator (navigator.ts)

`optimisticNavigate` builds the page object pushed into the host
router. Its `props` field is either the cached props object (used
verbatim) or, on a cache miss, the identity props function
`(currentProps) => currentProps`; the two cases are modelled by
`PagePropsSpec`, whose application semantics is `applyPropsSpec`. -/

/-- Props field of the optimistic page: a concrete object or the
pass-through function over the current page props. -/
inductive PagePropsSpec (Props : Type) where
  | verbatim : Props → PagePropsSpec Props
  | passthrough : PagePropsSpec Props
deriving DecidableEq, Repr

/-- Application of the props field to the currently rendered props. -/
def applyPropsSpec {Props : Type} : PagePropsSpec Props → Props → Props
  | .verbatim p, _ => p
  | .passthrough, cur => cur

/-- Embedding of the `NavigateOptions` record. -/
structure NavigateOptions where
  preserveScroll : Option Bool
  preserveState : Option Bool
  replace : Option Bool
deriving DecidableEq, Repr

/-- Page object handed to the host `push`/`replace` primitive. -/
structure PushedPage (Props : Type) where
  component : String
  url : String
  props : PagePropsSpec Props
  preserveScroll : Option Bool
  preserveState : Option Bool
  replace : Bool
deriving DecidableEq, Repr

namespace Navigator

/-- Embedding of `optimisticNavigate`: resolve cached props via
`getOrStale` (fresh or stale both used verbatim), fall back to the
pass-through props function, forward the render flags, and set the
loading flag (the second component). -/
def optimisticNavigate {Props : Type} (ttl : Nat) (store : CacheStore Props)
    (now : Nat) (m : Matcher.MatchResult) (options : Option NavigateOptions) :
    PushedPage Props × Bool :=
  let cached := Cache.getOrStale ttl store now m.url
  let page : PushedPage Props :=
    { component := m.route.component
      url := m.url
      props :=
        match cached with
        | some (entry, _) => .verbatim entry.props
        | none => .passthrough
      preserveScroll :=
        match options with
        | some o => o.preserveScroll
        | none => none
      preserveState :=
        match options with
        | some o => o.preserveState
        | none => none
      replace :=
        match options with
        | some o => o.replace = some true
        | none => false }
  (page, true)

/-- Embedding of `setLoaded`. -/
def setLoaded (_loading : Bool) : Bool := false

/-- Embedding of `isLoading`. -/
def isLoading (loading : Bool) : Bool := loading

/-- Embedding of `shouldOptimisticallyNavigate`: disabled engine, a
preflight `false` verdict, or the `auth` fallback (no authenticated
user on the current page) veto the optimistic path. -/
def shouldOptimisticallyNavigate (enabled hasPreflight : Bool)
    (pre : List (String × PreflightResult)) (nowSec : Nat)
    (currentAuthUser : Bool) (m : Matcher.MatchResult) : Bool :=
  if !enabled then false
  else if hasPreflight &&
      (Preflight.check pre nowSec m.route.middleware == some false) then false
  else if m.route.middleware.contains "auth" && !currentAuthUser then false
  else true

end Navigator

/-- Relation between `getOrStale` and plain lookup. -/
theorem Cache.getOrStale_eq_map {Props : Type} (ttl : Nat)
    (store : CacheStore Props) (now : Nat) (url : String) :
    Cache.getOrStale ttl store now url =
      (Cache.findEntry store url).map (fun e => (e, Cache.isExpired ttl now e)) := by
  unfold Cache.getOrStale
  cases h : Cache.findEntry store url <;> simp

/-- C10 (confirmed). `optimisticNavigate` renders the predicted
component at the predicted URL; its props are the cached entry's props
verbatim whenever the cache holds any entry for the target URL (fresh
or stale), and otherwise the pass-through transform whose application
to the current props is the identity (not an empty object); the
loading flag is set by the call, cleared by `setLoaded`, and reported
by `isLoading`. -/
theorem navigator_optimistic_navigate_contract {Props : Type} (ttl now : Nat)
    (store : CacheStore Props) (m : Matcher.MatchResult)
    (options : Option NavigateOptions) (b : Bool) (cur : Props) :
    ((Navigator.optimisticNavigate ttl store now m options).1.component =
        m.route.component ∧
      (Navigator.optimisticNavigate ttl store now m options).1.url = m.url) ∧
    ((Navigator.optimisticNavigate ttl store now m options).1.props =
      (match Cache.findEntry store m.url with
       | some e => .verbatim e.props
       | none => .passthrough)) ∧
    (applyPropsSpec (Navigator.optimisticNavigate ttl store now m options).1.props cur =
      (match Cache.findEntry store m.url with
       | some e => e.props
       | none => cur)) ∧
    (Navigator.optimisticNavigate ttl store now m options).2 = true ∧
    Navigator.setLoaded b = false ∧
    Navigator.isLoading b = b := by
  unfold Navigator.optimisticNavigate
  rw [Cache.getOrStale_eq_map]
  cases h : Cache.findEntry store m.url with
  | none =>
    refine ⟨⟨rfl, rfl⟩, rfl, rfl, rfl, rfl, rfl⟩
  | some e =>
    refine ⟨⟨rfl, rfl⟩, rfl, rfl, rfl, rfl, rfl⟩

/-! ## Background success handler (patch.ts `backgroundOptions.onSuccess`)

The server response payload is modelled by `ServerPage`; the
namespaced blocks `page.props._force10.preflight` and
`page.props._force10_server.invalidate` appear as the two optional
fields. The handler's effects — preflight table, cache, loading flag,
and forwarding to the caller's callback — are returned as an explicit
record. -/

/-- Server response page as read by the handler. -/
structure ServerPage (Props : Type) where
  component : String
  url : String
  props : Props
  preflightData : Option (List (String × PreflightResult))
  invalidate : Option (List String)
deriving DecidableEq, Repr

/-- Result state of the background success handler. -/
structure BgSuccessResult (Props : Type) where
  cache : CacheStore Props
  preflightData : List (String × PreflightResult)
  loading : Bool
  forwarded : Bool
deriving DecidableEq, Repr

/-- Embedding of the background request's `onSuccess` callback:
update preflight from the response; on a component mismatch remove the
predicted URL's entry, clear loading, and forward; otherwise write the
response into the cache under the predicted URL (`match.url`) with the
page's own URL recorded in the entry, apply the server-declared
invalidation patterns, clear loading, and forward. -/
def backgroundOnSuccess {Props : Type} (maxEntries : Nat)
    (m : Matcher.MatchResult) (hasPreflight : Bool)
    (pre : List (String × PreflightResult)) (store : CacheStore Props)
    (page : ServerPage Props) (now : Nat) (hasCallerOnSuccess : Bool) :
    BgSuccessResult Props :=
  let pre2 :=
    if hasPreflight then
      match page.preflightData with
      | some d => d
      | none => pre
    else pre
  if page.component ≠ m.route.component then
    { cache := Cache.remove store m.url
      preflightData := pre2
      loading := false
      forwarded := hasCallerOnSuccess }
  else
    let seeded : CacheStore Props :=
      Cache.set maxEntries store m.url
        { props := page.props, timestamp := now, url := page.url,
          component := page.component }
    let afterInvalidate :=
      match page.invalidate with
      | some pats => pats.foldl (fun st p => Cache.invalidateByPattern st p) seeded
      | none => seeded
    { cache := afterInvalidate
      preflightData := pre2
      loading := false
      forwarded := hasCallerOnSuccess }

/-- Removing a key makes its lookup fail. -/
theorem Cache.findEntry_remove_self {Props : Type} (store : CacheStore Props)
    (url : String) :
    Cache.findEntry (Cache.remove store url) url = none := by
  rw [Cache.findEntry_eq_none_iff]
  unfold Cache.remove Cache.cacheKeys
  intro hmem
  rw [List.mem_map] at hmem
  obtain ⟨kv, hkv, he⟩ := hmem
  rw [List.mem_filter] at hkv
  have hne := hkv.2
  rw [he] at hne
  simp at hne

/-- Setting a key makes its lookup return the new entry, as long as
the capacity keeps at least one element. -/
theorem Cache.findEntry_set_self {Props : Type} (maxEntries : Nat)
    (store : CacheStore Props) (url : String) (page : CachedPage Props)
    (hmax : 1 ≤ maxEntries) :
    Cache.findEntry (Cache.set maxEntries store url page) url = some page := by
  unfold Cache.set
  rw [Cache.evictIfNeeded_eq_drop]
  set flt := store.filter (fun kv => !(kv.fst == url)) with hflt
  have hlen : (flt ++ [(url, page)]).length = flt.length + 1 := by simp
  have hk : (flt ++ [(url, page)]).length - maxEntries ≤ flt.length := by
    rw [hlen]
    omega
  rw [List.drop_append_eq_append_drop]
  have hz : (flt ++ [(url, page)]).length - maxEntries - flt.length = 0 := by
    rw [hlen]
    omega
  rw [hz, List.drop_zero]
  unfold Cache.findEntry
  rw [List.find?_append]
  have hnone : (flt.drop ((flt ++ [(url, page)]).length - maxEntries)).find?
      (fun kv => kv.fst == url) = none := by
    rw [List.find?_eq_none]
    intro kv hkv
    have hmem : kv ∈ flt := List.mem_of_mem_drop hkv
    rw [hflt, List.mem_filter] at hmem
    have := hmem.2
    simp at this
    simp [this]
  rw [hnone]
  simp

/-- Entry written by the background success handler. -/
def seededEntry {Props : Type} (page : ServerPage Props) (now : Nat) :
    CachedPage Props :=
  { props := page.props, timestamp := now, url := page.url,
    component := page.component }

/-- Route and match used by the C4 example. -/
def exampleUsersIndexRoute : ManifestRoute :=
  { pattern := "/users", component := "Users/Index",
    middleware := [], parameters := [] }

/-- Predicted match with URL `/users`. -/
def exampleUsersMatch : Matcher.MatchResult :=
  { route := exampleUsersIndexRoute, url := "/users" }

/-- A matching server response whose own URL gained a query string. -/
def exampleServerPage : ServerPage Unit :=
  { component := "Users/Index", url := "/users?page=2", props := (),
    preflightData := none, invalidate := none }

/-- Counterexample to C4 as stated: when the server's URL differs in
query string from the predicted URL, the response is cached under the
predicted URL `/users` (with the server URL only recorded inside the
entry), not under the server-reported `/users?page=2`. -/
theorem background_success_key_counterexample :
    Cache.findEntry
        (backgroundOnSuccess 50 exampleUsersMatch false []
          ([] : CacheStore Unit) exampleServerPage 7 false).cache
        "/users?page=2" = none ∧
      Cache.findEntry
        (backgroundOnSuccess 50 exampleUsersMatch false []
          ([] : CacheStore Unit) exampleServerPage 7 false).cache
        "/users" = some (seededEntry exampleServerPage 7) := by
  constructor
  · decide
  · decide

/-- C4 (corrected). On a successful background response with the
predicted view id, the response is written into the cache keyed by the
predicted URL (`match.url`) — the page's own URL, which may differ in
query string, is recorded inside the entry, not used as the key — and
the server-declared invalidation patterns are then applied; on a view
id mismatch the predicted URL's entry is removed and no new entry is
written under it; loading is cleared in both cases. -/
theorem background_success_cache_policy {Props : Type} (maxEntries : Nat)
    (m : Matcher.MatchResult) (hasPreflight : Bool)
    (pre : List (String × PreflightResult)) (store : CacheStore Props)
    (page : ServerPage Props) (now : Nat) (hasCb : Bool) :
    (page.component ≠ m.route.component →
      (backgroundOnSuccess maxEntries m hasPreflight pre store page now hasCb).cache =
          Cache.remove store m.url ∧
        Cache.findEntry
          (backgroundOnSuccess maxEntries m hasPreflight pre store page now hasCb).cache
          m.url = none ∧
        (backgroundOnSuccess maxEntries m hasPreflight pre store page now hasCb).loading =
          false) ∧
    (page.component = m.route.component →
      (backgroundOnSuccess maxEntries m hasPreflight pre store page now hasCb).cache =
          (match page.invalidate with
           | some pats =>
             pats.foldl (fun st p => Cache.invalidateByPattern st p)
               (Cache.set maxEntries store m.url (seededEntry page now))
           | none => Cache.set maxEntries store m.url (seededEntry page now)) ∧
        (backgroundOnSuccess maxEntries m hasPreflight pre store page now hasCb).loading =
          false) ∧
    (page.component = m.route.component → page.invalidate = none →
      1 ≤ maxEntries →
      Cache.findEntry
        (backgroundOnSuccess maxEntries m hasPreflight pre store page now hasCb).cache
        m.url = some (seededEntry page now)) := by
  by_cases hcomp : page.component = m.route.component
  · refine ⟨fun habs => absurd hcomp habs, ?_, ?_⟩
    · intro _
      unfold backgroundOnSuccess
      rw [if_neg (fun h2 => h2 hcomp)]
      exact ⟨rfl, rfl⟩
    · intro _ hinv hmax
      unfold backgroundOnSuccess
      rw [if_neg (fun h2 => h2 hcomp)]
      dsimp only
      rw [hinv]
      exact Cache.findEntry_set_self maxEntries store m.url (seededEntry page now) hmax
  · refine ⟨?_, fun habs => absurd habs hcomp, fun habs => absurd habs hcomp⟩
    intro _
    unfold backgroundOnSuccess
    rw [if_pos hcomp]
    exact ⟨rfl, Cache.findEntry_remove_self store m.url, rfl⟩

/-- Witness for C4 at the concrete matching response. -/
theorem background_success_cache_policy_witness :
    Cache.findEntry
      (backgroundOnSuccess 50 exampleUsersMatch false []
        ([] : CacheStore Unit) exampleServerPage 7 false).cache
      "/users" = some (seededEntry exampleServerPage 7) :=
  (background_success_cache_policy 50 exampleUsersMatch false []
    ([] : CacheStore Unit) exampleServerPage 7 false).2.2 rfl rfl (by omega)

/-! ## Navigation interceptor (patch.ts `patchedVisit`)

The interceptor closure state (`cancelPendingBackground`, and per
navigation the `backgroundFired` latch, the `navigate` listener and the
fallback timer) becomes an explicit state. Each optimistic navigation
creates a `Gate`; the host-visible effects — synchronous passthrough
calls, deferred background calls and optimistic pushes — are recorded
in append-only logs. Traces of host events (visit calls with the
ambient current-page snapshot, the `navigate` event delivered to every
live listener, and timer expiries) drive the machine. URL-object
arguments and the response callbacks are outside this trace model (the
callbacks are modelled by `backgroundOnSuccess`). -/

/-- One armed race-avoidance gate: the `backgroundFired` latch plus the
liveness of the `navigate` listener and the fallback timer. -/
structure Gate where
  id : Nat
  href : String
  fired : Bool
  listenerOn : Bool
  timerOn : Bool
deriving DecidableEq, Repr

/-- Calls into the original navigation entry point. -/
inductive HostCall where
  /-- synchronous passthrough with the original arguments. -/
  | sync : String → HostCall
  /-- cache-gated passthrough with the wrapped success callback. -/
  | syncGated : String → HostCall
  /-- deferred background request of the gate with the given id. -/
  | background : Nat → String → HostCall
deriving DecidableEq, Repr

/-- One optimistic render via the host push/replace primitive. -/
structure PushRecord where
  id : Nat
  component : String
  url : String
deriving DecidableEq, Repr

/-- Interceptor state. -/
structure IState where
  gates : List Gate
  cancelTarget : Option Nat
  loading : Bool
  nextId : Nat
  calls : List HostCall
  pushes : List PushRecord
deriving DecidableEq, Repr

/-- Read-only environment of a trace: manifest, configuration, origin,
preflight attachment and table, current epoch second, and the cache
contents consulted by the skip chain. -/
structure IEnv (Props : Type) where
  routes : List ManifestRoute
  excludes : List String
  enabled : Bool
  origin : String
  hasPreflight : Bool
  preflightData : List (String × PreflightResult)
  nowSec : Nat
  cache : CacheStore Props
  ttl : Nat

/-- Ambient current-page snapshot (`window.history.state?.page`). -/
structure CurrentPage where
  url : String
  authUser : Bool
deriving DecidableEq, Repr

/-- Options of a visit call, reduced to the field the skip chain
reads. -/
structure VisitOpts where
  method : Option String
deriving DecidableEq, Repr

/-- External events driving the interceptor. -/
inductive Ev where
  | visit : String → Option VisitOpts → Option CurrentPage → Ev
  | navigate : Ev
  | timer : Nat → Ev
deriving DecidableEq, Repr

namespace Interceptor

/-- Latched gate: fired or cancelled; listener removed, timer
cleared. -/
def latch (g : Gate) : Gate :=
  { g with fired := true, listenerOn := false, timerOn := false }

/-- Embedding of the stored `cancelPendingBackground` closure: if the
latch is not yet set, set it, tear down listener and timer, and clear
the loading flag; then null the stored handle. -/
def runCancel (s : IState) : IState :=
  match s.cancelTarget with
  | none => s
  | some gid =>
    let pending := s.gates.any fun g => g.id == gid && !g.fired
    { s with
      gates :=
        if pending then
          s.gates.map fun g => if g.id == gid then latch g else g
        else s.gates
      loading := if pending then false else s.loading
      cancelTarget := none }

/-- Append a plain passthrough call. -/
def recordSync (s : IState) (href : String) : IState :=
  { s with calls := s.calls ++ [.sync href] }

/-- Append a cache-gated passthrough call. -/
def recordSyncGated (s : IState) (href : String) : IState :=
  { s with calls := s.calls ++ [.syncGated href] }

/-- Non-GET test: `options?.method && options.method !== 'get'` with
JavaScript falsiness of the empty string. -/
def isNonGet (opts : Option VisitOpts) : Bool :=
  match opts with
  | some o =>
    match o.method with
    | some m2 => m2 != "" && m2 != "get"
    | none => false
  | none => false

/-- Outcome of the absolute-URL step: pass through, or continue with a
path. -/
inductive UrlStep where
  | passthrough : UrlStep
  | path : String → UrlStep

/-- Parse of an absolute `http(s)` URL into origin and pathname (query
and hash excluded from the pathname, as `URL.pathname` does); `none`
models a URL constructor error. -/
def parseAbsolute (href : String) : Option (String × String) :=
  let cs := href.data
  let schemeSplit :=
    if "http://".data.isPrefixOf cs then some ("http://".data, cs.drop 7)
    else if "https://".data.isPrefixOf cs then some ("https://".data, cs.drop 8)
    else none
  match schemeSplit with
  | none => none
  | some (scheme, rest) =>
    let host := rest.takeWhile fun c => c != '/' && c != '?' && c != '#'
    if host = [] then none
    else
      let tail := rest.drop host.length
      let path := tail.takeWhile fun c => c != '?' && c != '#'
      some (String.mk (scheme ++ host),
        String.mk (if path = [] then ['/'] else path))

/-- Embedding of the external-URL step of the skip chain. -/
def resolveExternal {Props : Type} (env : IEnv Props) (urlPath : String) :
    UrlStep :=
  if "http://".data.isPrefixOf urlPath.data ||
      "https://".data.isPrefixOf urlPath.data then
    match parseAbsolute urlPath with
    | none => .passthrough
    | some (orig, path) =>
      if orig ≠ env.origin then .passthrough else .path path
  else .path urlPath

/-- Arm a new gate and perform the optimistic render: this is the tail
of the optimistic path (listener subscription, fallback timer, cancel
handle, then `navigator.optimisticNavigate`, which sets the loading
flag and pushes the predicted page). No host call is appended. -/
def armOptimistic (s : IState) (href : String) (m : Matcher.MatchResult) :
    IState :=
  let g : Gate :=
    { id := s.nextId, href := href, fired := false, listenerOn := true, timerOn := true }
  let push : PushRecord :=
    { id := s.nextId, component := m.route.component, url := m.url }
  { s with
    gates := s.gates ++ [g]
    cancelTarget := some s.nextId
    nextId := s.nextId + 1
    loading := true
    pushes := s.pushes ++ [push] }

/-- Skip chain and dispatch of `patchedVisit`, after the unconditional
cancellation. -/
def visitCore {Props : Type} (env : IEnv Props) (s : IState) (href : String)
    (opts : Option VisitOpts) (current : Option CurrentPage) : IState :=
  let urlPath := href
  if urlPath.data.head? = some '#' then recordSync s href
  else if some urlPath = current.map CurrentPage.url then recordSync s href
  else
    match resolveExternal env urlPath with
    | .passthrough => recordSync s href
    | .path p =>
      if isNonGet opts then recordSync s href
      else
        match Matcher.matchUrl env.routes p with
        | none => recordSync s href
        | some m =>
          if !(Navigator.shouldOptimisticallyNavigate env.enabled
              env.hasPreflight env.preflightData env.nowSec
              (match current with
               | some c => c.authUser
               | none => false) m) then
            recordSync s href
          else
            if (Cache.findEntry env.cache m.url).isNone && env.hasPreflight &&
                (Preflight.check env.preflightData env.nowSec
                  m.route.middleware == none) then
              recordSyncGated s href
            else
              armOptimistic s href m

/-- Embedding of `patchedVisit`: cancel any pending background first,
then run the skip chain. -/
def stepVisit {Props : Type} (env : IEnv Props) (s : IState) (href : String)
    (opts : Option VisitOpts) (current : Option CurrentPage) : IState :=
  visitCore env (runCancel s) href opts current

/-- Delivery of the host `navigate` event to every live listener; a
listener whose latch is already set returns without side effects. -/
def stepNavigate (s : IState) : IState :=
  let firing := s.gates.filter fun g => g.listenerOn && !g.fired
  { s with
    gates := s.gates.map fun g => if g.listenerOn && !g.fired then latch g else g
    calls := s.calls ++ firing.map fun g => .background g.id g.href
    cancelTarget := if firing.isEmpty then s.cancelTarget else none }

/-- Expiry of the fallback timer of gate `gid`: a cleared timer does
not fire; an armed timer is consumed and runs `fireBackground`, which
the latch may turn into a no-op. -/
def stepTimer (s : IState) (gid : Nat) : IState :=
  match s.gates.find? (fun g => g.id == gid) with
  | none => s
  | some g =>
    if !g.timerOn then s
    else if g.fired then
      { s with gates := s.gates.map fun g2 =>
          if g2.id == gid then { g2 with timerOn := false } else g2 }
    else
      { s with
        gates := s.gates.map fun g2 => if g2.id == gid then latch g2 else g2
        calls := s.calls ++ [.background gid g.href]
        cancelTarget := none }

/-- One step of the machine. -/
def step {Props : Type} (env : IEnv Props) (s : IState) : Ev → IState
  | .visit href opts current => stepVisit env s href opts current
  | .navigate => stepNavigate s
  | .timer gid => stepTimer s gid

/-- Initial state installed by `applyPatch`. -/
def initState : IState :=
  { gates := [], cancelTarget := none, loading := false, nextId := 0,
    calls := [], pushes := [] }

/-- Run a trace from a given state. -/
def runFrom {Props : Type} (env : IEnv Props) (s : IState)
    (evs : List Ev) : IState :=
  evs.foldl (step env) s

/-- Run a trace from the freshly patched state. -/
def run {Props : Type} (env : IEnv Props) (evs : List Ev) : IState :=
  runFrom env initState evs

/-- Number of background calls for gate `gid` in a call log. -/
def bgCountCalls (calls : List HostCall) (gid : Nat) : Nat :=
  (calls.filter fun c =>
    match c with
    | .background id2 _ => id2 == gid
    | _ => false).length

/-- Number of background calls issued for gate `gid`. -/
def bgCount (s : IState) (gid : Nat) : Nat :=
  bgCountCalls s.calls gid

/-- Whether gate `gid` is pending (armed, latch not set). -/
def gatePending (s : IState) (gid : Nat) : Bool :=
  s.gates.any fun g => g.id == gid && !g.fired

/-- Number of pending gates. -/
def countPending (s : IState) : Nat :=
  (s.gates.filter fun g => !g.fired).length

@[simp]
theorem bgCountCalls_nil (gid : Nat) : bgCountCalls [] gid = 0 := rfl

@[simp]
theorem bgCountCalls_append (l1 l2 : List HostCall) (gid : Nat) :
    bgCountCalls (l1 ++ l2) gid = bgCountCalls l1 gid + bgCountCalls l2 gid := by
  unfold bgCountCalls
  rw [List.filter_append, List.length_append]

@[simp]
theorem bgCountCalls_sync (h : String) (gid : Nat) :
    bgCountCalls [.sync h] gid = 0 := rfl

@[simp]
theorem bgCountCalls_syncGated (h : String) (gid : Nat) :
    bgCountCalls [.syncGated h] gid = 0 := rfl

theorem bgCountCalls_background (id2 : Nat) (h : String) (gid : Nat) :
    bgCountCalls [.background id2 h] gid = if id2 = gid then 1 else 0 := by
  unfold bgCountCalls
  by_cases he : id2 = gid
  · simp [he]
  · have hbe : (id2 == gid) = false := by
      rw [beq_eq_false_iff_ne]
      exact he
    simp [List.filter, hbe, he]

/-- Machine invariant maintained by every reachable state: gate ids
are distinct and below the counter, the latch agrees with the
listener and timer flags, every pending gate is the stored cancel
target, and the background log has at most one entry per gate, each
for a gate whose latch is set. -/
structure Inv (s : IState) : Prop where
  nodup : (s.gates.map Gate.id).Nodup
  idsLt : ∀ g ∈ s.gates, g.id < s.nextId
  flagsPending : ∀ g ∈ s.gates, g.fired = false →
    g.listenerOn = true ∧ g.timerOn = true
  flagsFired : ∀ g ∈ s.gates, g.fired = true →
    g.listenerOn = false ∧ g.timerOn = false
  pointer : ∀ g ∈ s.gates, g.fired = false → s.cancelTarget = some g.id
  bgOnce : ∀ gid, bgCountCalls s.calls gid ≤ 1
  bgFired : ∀ gid, 1 ≤ bgCountCalls s.calls gid →
    ∃ g ∈ s.gates, g.id = gid ∧ g.fired = true

theorem inv_initState : Inv initState := by
  constructor <;> simp [initState, bgCountCalls]

/-- Distinct ids make the gate list injective on ids. -/
theorem gates_id_inj {s : IState} (hinv : Inv s) :
    ∀ g1 ∈ s.gates, ∀ g2 ∈ s.gates, g1.id = g2.id → g1 = g2 := by
  intro g1 h1 g2 h2 he
  exact List.inj_on_of_nodup_map hinv.nodup h1 h2 he

/-- A pending gate has no background call on record. -/
theorem Inv.bgPendingZero {s : IState} (hinv : Inv s) :
    ∀ g ∈ s.gates, g.fired = false → bgCountCalls s.calls g.id = 0 := by
  intro g hg hf
  by_contra hne
  have hge : 1 ≤ bgCountCalls s.calls g.id := by omega
  obtain ⟨g2, hg2, hid, hfired⟩ := hinv.bgFired g.id hge
  have : g2 = g := gates_id_inj hinv g2 hg2 g hg hid
  subst this
  rw [hfired] at hf
  cases hf

/-- All pending gates coincide. -/
theorem Inv.pendingUnique {s : IState} (hinv : Inv s) :
    ∀ g1 ∈ s.gates, ∀ g2 ∈ s.gates,
      g1.fired = false → g2.fired = false → g1 = g2 := by
  intro g1 h1 g2 h2 hf1 hf2
  have ha := hinv.pointer g1 h1 hf1
  have hb := hinv.pointer g2 h2 hf2
  rw [ha] at hb
  exact gates_id_inj hinv g1 h1 g2 h2 (Option.some_inj.mp hb)

/-- At most one pending gate. -/
theorem Inv.countPending_le_one {s : IState} (hinv : Inv s) :
    countPending s ≤ 1 := by
  unfold countPending
  cases hl : s.gates.filter (fun g => !g.fired) with
  | nil => simp
  | cons a rest =>
    cases hr : rest with
    | nil => simp
    | cons b rest2 =>
      exfalso
      have hmema : a ∈ s.gates.filter (fun g => !g.fired) := by
        rw [hl]
        exact List.mem_cons_self _ _
      have hmemb : b ∈ s.gates.filter (fun g => !g.fired) := by
        rw [hl, hr]
        exact List.mem_cons_of_mem _ (List.mem_cons_self _ _)
      rw [List.mem_filter] at hmema hmemb
      have hfa : a.fired = false := by
        have := hmema.2
        simp at this
        exact this
      have hfb : b.fired = false := by
        have := hmemb.2
        simp at this
        exact this
      have hab : a = b :=
        hinv.pendingUnique a hmema.1 b hmemb.1 hfa hfb
      have hsub : (s.gates.filter (fun g => !g.fired)).Sublist s.gates :=
        List.filter_sublist _
      have hnd : ((s.gates.filter (fun g => !g.fired)).map Gate.id).Nodup :=
        hinv.nodup.sublist (hsub.map Gate.id)
      rw [hl, hr] at hnd
      simp at hnd
      exact hnd.1.1 (by rw [hab])

/-- Elements of a conditional update map come from the original list. -/
theorem mem_map_ite {p : Gate → Bool} {f : Gate → Gate} (l : List Gate) :
    ∀ g2 ∈ l.map (fun g => if p g then f g else g),
      ∃ g ∈ l, (p g = true ∧ g2 = f g) ∨ (p g = false ∧ g2 = g) := by
  intro g2 hg2
  rw [List.mem_map] at hg2
  obtain ⟨g, hg, he⟩ := hg2
  by_cases hp : p g = true
  · refine ⟨g, hg, Or.inl ⟨hp, ?_⟩⟩
    rw [← he, if_pos hp]
  · have hp2 : p g = false := by
      cases hv : p g
      · rfl
      · exact absurd hv hp
    refine ⟨g, hg, Or.inr ⟨hp2, ?_⟩⟩
    rw [← he, if_neg (by rw [hp2]; exact Bool.false_ne_true)]

theorem runCancel_calls (s : IState) : (runCancel s).calls = s.calls := by
  unfold runCancel
  cases s.cancelTarget <;> rfl

theorem runCancel_nextId (s : IState) : (runCancel s).nextId = s.nextId := by
  unfold runCancel
  cases s.cancelTarget <;> rfl

theorem runCancel_pushes (s : IState) : (runCancel s).pushes = s.pushes := by
  unfold runCancel
  cases s.cancelTarget <;> rfl

theorem runCancel_cancelTarget (s : IState) :
    (runCancel s).cancelTarget = none ∨ runCancel s = s := by
  unfold runCancel
  cases s.cancelTarget
  · exact Or.inr rfl
  · exact Or.inl rfl

/-- Cancellation is idempotent. -/
theorem runCancel_idem (s : IState) : runCancel (runCancel s) = runCancel s := by
  unfold runCancel
  cases h : s.cancelTarget with
  | none => rw [h]
  | some gid => rfl

/-- Ids survive the latch map. -/
theorem map_id_latch_map (l : List Gate) (p : Gate → Bool) :
    (l.map (fun g => if p g then latch g else g)).map Gate.id = l.map Gate.id := by
  rw [List.map_map]
  apply List.map_congr_left
  intro g _
  by_cases hp : p g = true
  · simp [hp, latch]
  · have hp2 : p g = false := by
      cases hv : p g
      · rfl
      · exact absurd hv hp
    simp [hp2]

/-- Ids survive the timer-off map. -/
theorem map_id_timerOff_map (l : List Gate) (p : Gate → Bool) :
    (l.map (fun g => if p g then { g with timerOn := false } else g)).map Gate.id =
      l.map Gate.id := by
  rw [List.map_map]
  apply List.map_congr_left
  intro g _
  by_cases hp : p g = true
  · simp [hp]
  · have hp2 : p g = false := by
      cases hv : p g
      · rfl
      · exact absurd hv hp
    simp [hp2]

theorem runCancel_gates_ids (s : IState) :
    (runCancel s).gates.map Gate.id = s.gates.map Gate.id := by
  unfold runCancel
  cases s.cancelTarget with
  | none => rfl
  | some gid =>
    dsimp only
    by_cases hp : (s.gates.any fun g => g.id == gid && !g.fired) = true
    · rw [if_pos hp]
      exact map_id_latch_map s.gates _
    · rw [if_neg hp]

/-- After cancellation no gate is pending. -/
theorem runCancel_no_pending {s : IState} (hinv : Inv s) :
    ∀ g2 ∈ (runCancel s).gates, g2.fired = true := by
  intro g2 hg2
  unfold runCancel at hg2
  cases ht : s.cancelTarget with
  | none =>
    rw [ht] at hg2
    dsimp only at hg2
    cases hf : g2.fired with
    | true => rfl
    | false =>
      have := hinv.pointer g2 hg2 hf
      rw [ht] at this
      cases this
  | some gid =>
    rw [ht] at hg2
    dsimp only at hg2
    by_cases hp : (s.gates.any fun g => g.id == gid && !g.fired) = true
    · rw [if_pos hp] at hg2
      obtain ⟨g, hg, hcase⟩ := mem_map_ite s.gates g2 hg2
      rcases hcase with ⟨hc, he⟩ | ⟨hc, he⟩
      · subst he
        rfl
      · subst he
        cases hf : g2.fired with
        | true => rfl
        | false =>
          have hpt := hinv.pointer g2 hg hf
          rw [ht] at hpt
          have hid : g2.id = gid := Option.some_inj.mp hpt.symm
          rw [beq_eq_false_iff_ne] at hc
          exact absurd hid hc
    · rw [if_neg hp] at hg2
      cases hf : g2.fired with
      | true => rfl
      | false =>
        have hpt := hinv.pointer g2 hg2 hf
        rw [ht] at hpt
        have hid : g2.id = gid := Option.some_inj.mp hpt.symm
        exfalso
        apply hp
        rw [List.any_eq_true]
        refine ⟨g2, hg2, ?_⟩
        rw [Bool.and_eq_true, beq_iff_eq, Bool.not_eq_true']
        exact ⟨hid, hf⟩

theorem inv_runCancel {s : IState} (hinv : Inv s) : Inv (runCancel s) := by
  rcases runCancel_cancelTarget s with hnone | heq
  case inr =>
    rw [heq]
    exact hinv
  constructor
  · rw [runCancel_gates_ids]
    exact hinv.nodup
  · intro g2 hg2
    rw [runCancel_nextId]
    unfold runCancel at hg2
    cases ht : s.cancelTarget with
    | none =>
      rw [ht] at hg2
      exact hinv.idsLt g2 hg2
    | some gid =>
      rw [ht] at hg2
      dsimp only at hg2
      by_cases hp : (s.gates.any fun g => g.id == gid && !g.fired) = true
      · rw [if_pos hp] at hg2
        obtain ⟨g, hg, hcase⟩ := mem_map_ite s.gates g2 hg2
        rcases hcase with ⟨_, he⟩ | ⟨_, he⟩
        · subst he
          exact hinv.idsLt g hg
        · subst he
          exact hinv.idsLt g2 hg
      · rw [if_neg hp] at hg2
        exact hinv.idsLt g2 hg2
  · intro g2 hg2 hf
    have := runCancel_no_pending hinv g2 hg2
    rw [this] at hf
    cases hf
  · intro g2 hg2 _
    unfold runCancel at hg2
    cases ht : s.cancelTarget with
    | none =>
      rw [ht] at hg2
      cases hf : g2.fired with
      | true => exact hinv.flagsFired g2 hg2 hf
      | false =>
        have := hinv.pointer g2 hg2 hf
        rw [ht] at this
        cases this
    | some gid =>
      rw [ht] at hg2
      dsimp only at hg2
      by_cases hp : (s.gates.any fun g => g.id == gid && !g.fired) = true
      · rw [if_pos hp] at hg2
        obtain ⟨g, hg, hcase⟩ := mem_map_ite s.gates g2 hg2
        rcases hcase with ⟨_, he⟩ | ⟨hc, he⟩
        · subst he
          exact ⟨rfl, rfl⟩
        · subst he
          cases hf : g2.fired with
          | true => exact hinv.flagsFired g2 hg hf
          | false =>
            have hpt := hinv.pointer g2 hg hf
            rw [ht] at hpt
            have hid : g2.id = gid := Option.some_inj.mp hpt.symm
            rw [beq_eq_false_iff_ne] at hc
            exact absurd hid hc
      · rw [if_neg hp] at hg2
        cases hf : g2.fired with
        | true => exact hinv.flagsFired g2 hg2 hf
        | false =>
          have hpt := hinv.pointer g2 hg2 hf
          rw [ht] at hpt
          have hid : g2.id = gid := Option.some_inj.mp hpt.symm
          exfalso
          apply hp
          rw [List.any_eq_true]
          refine ⟨g2, hg2, ?_⟩
          rw [Bool.and_eq_true, beq_iff_eq, Bool.not_eq_true']
          exact ⟨hid, hf⟩
  · intro g2 hg2 hf
    have := runCancel_no_pending hinv g2 hg2
    rw [this] at hf
    cases hf
  · intro gid
    rw [runCancel_calls]
    exact hinv.bgOnce gid
  · intro gid hge
    rw [runCancel_calls] at hge
    obtain ⟨g, hg, hid, hfired⟩ := hinv.bgFired gid hge
    unfold runCancel
    cases ht : s.cancelTarget with
    | none =>
      exact ⟨g, hg, hid, hfired⟩
    | some gid2 =>
      dsimp only
      by_cases hp : (s.gates.any fun g => g.id == gid2 && !g.fired) = true
      · rw [if_pos hp]
        by_cases hc : (g.id == gid2) = true
        · refine ⟨latch g, ?_, hid, rfl⟩
          rw [List.mem_map]
          exact ⟨g, hg, by simp only [hc, if_true]⟩
        · refine ⟨g, ?_, hid, hfired⟩
          rw [List.mem_map]
          have hc2 : (g.id == gid2) = false := by
            cases hv : g.id == gid2
            · rfl
            · exact absurd hv hc
          exact ⟨g, hg, by simp only [hc2, Bool.false_eq_true, if_false]⟩
      · rw [if_neg hp]
        exact ⟨g, hg, hid, hfired⟩

/-- The skip chain ends in exactly one of three ways: plain
passthrough, cache-gated passthrough, or the optimistic arm. -/
theorem visitCore_result {Props : Type} (env : IEnv Props) (s : IState)
    (href : String) (opts : Option VisitOpts) (current : Option CurrentPage) :
    visitCore env s href opts current = recordSync s href ∨
    visitCore env s href opts current = recordSyncGated s href ∨
    ∃ m, visitCore env s href opts current = armOptimistic s href m := by
  unfold visitCore
  dsimp only
  split
  · exact Or.inl rfl
  · split
    · exact Or.inl rfl
    · split
      · exact Or.inl rfl
      · split
        · exact Or.inl rfl
        · split
          · exact Or.inl rfl
          · split
            · exact Or.inl rfl
            · split
              · exact Or.inr (Or.inl rfl)
              · exact Or.inr (Or.inr ⟨_, rfl⟩)

theorem inv_recordSync {s : IState} (hinv : Inv s) (href : String) :
    Inv (recordSync s href) := by
  constructor
  · exact hinv.nodup
  · exact hinv.idsLt
  · exact hinv.flagsPending
  · exact hinv.flagsFired
  · exact hinv.pointer
  · intro gid
    unfold recordSync
    dsimp only
    rw [bgCountCalls_append, bgCountCalls_sync]
    have := hinv.bgOnce gid
    omega
  · intro gid hge
    unfold recordSync at hge ⊢
    dsimp only at hge ⊢
    rw [bgCountCalls_append, bgCountCalls_sync] at hge
    exact hinv.bgFired gid (by omega)

theorem inv_recordSyncGated {s : IState} (hinv : Inv s) (href : String) :
    Inv (recordSyncGated s href) := by
  constructor
  · exact hinv.nodup
  · exact hinv.idsLt
  · exact hinv.flagsPending
  · exact hinv.flagsFired
  · exact hinv.pointer
  · intro gid
    unfold recordSyncGated
    dsimp only
    rw [bgCountCalls_append, bgCountCalls_syncGated]
    have := hinv.bgOnce gid
    omega
  · intro gid hge
    unfold recordSyncGated at hge ⊢
    dsimp only at hge ⊢
    rw [bgCountCalls_append, bgCountCalls_syncGated] at hge
    exact hinv.bgFired gid (by omega)

theorem inv_armOptimistic {s : IState} (hinv : Inv s)
    (hquiet : ∀ g ∈ s.gates, g.fired = true)
    (href : String) (m : Matcher.MatchResult) :
    Inv (armOptimistic s href m) := by
  constructor
  · unfold armOptimistic
    dsimp only
    rw [List.map_append]
    apply List.Nodup.append hinv.nodup (by simp)
    intro gid hg1 hg2
    simp at hg2
    subst hg2
    rw [List.mem_map] at hg1
    obtain ⟨g, hg, he⟩ := hg1
    have := hinv.idsLt g hg
    omega
  · intro g2 hg2
    unfold armOptimistic at hg2 ⊢
    dsimp only at hg2 ⊢
    rw [List.mem_append] at hg2
    rcases hg2 with hg2 | hg2
    · have := hinv.idsLt g2 hg2
      omega
    · simp at hg2
      subst hg2
      show s.nextId < s.nextId + 1
      omega
  · intro g2 hg2 hf
    unfold armOptimistic at hg2
    dsimp only at hg2
    rw [List.mem_append] at hg2
    rcases hg2 with hg2 | hg2
    · rw [hquiet g2 hg2] at hf
      cases hf
    · simp at hg2
      subst hg2
      exact ⟨rfl, rfl⟩
  · intro g2 hg2 hf
    unfold armOptimistic at hg2
    dsimp only at hg2
    rw [List.mem_append] at hg2
    rcases hg2 with hg2 | hg2
    · exact hinv.flagsFired g2 hg2 hf
    · simp at hg2
      subst hg2
      cases hf
  · intro g2 hg2 hf
    unfold armOptimistic at hg2 ⊢
    dsimp only at hg2 ⊢
    rw [List.mem_append] at hg2
    rcases hg2 with hg2 | hg2
    · rw [hquiet g2 hg2] at hf
      cases hf
    · simp at hg2
      subst hg2
      rfl
  · intro gid
    exact hinv.bgOnce gid
  · intro gid hge
    obtain ⟨g, hg, hid, hfired⟩ := hinv.bgFired gid hge
    unfold armOptimistic
    dsimp only
    exact ⟨g, List.mem_append_left _ hg, hid, hfired⟩

theorem inv_stepVisit {Props : Type} (env : IEnv Props) {s : IState}
    (hinv : Inv s) (href : String) (opts : Option VisitOpts)
    (current : Option CurrentPage) :
    Inv (stepVisit env s href opts current) := by
  unfold stepVisit
  have hrc := inv_runCancel hinv
  rcases visitCore_result env (runCancel s) href opts current with h | h | ⟨m, h⟩
  · rw [h]
    exact inv_recordSync hrc href
  · rw [h]
    exact inv_recordSyncGated hrc href
  · rw [h]
    exact inv_armOptimistic hrc (runCancel_no_pending hinv) href m

/-- A visit call never appends a background request: the background
log is untouched, whatever branch the skip chain takes. -/
theorem bgCount_stepVisit {Props : Type} (env : IEnv Props) (s : IState)
    (href : String) (opts : Option VisitOpts) (current : Option CurrentPage)
    (gid : Nat) :
    bgCount (stepVisit env s href opts current) gid = bgCount s gid := by
  unfold stepVisit bgCount
  rcases visitCore_result env (runCancel s) href opts current with h | h | ⟨m, h⟩
  · rw [h]
    unfold recordSync
    dsimp only
    rw [bgCountCalls_append, bgCountCalls_sync, runCancel_calls]
    omega
  · rw [h]
    unfold recordSyncGated
    dsimp only
    rw [bgCountCalls_append, bgCountCalls_syncGated, runCancel_calls]
    omega
  · rw [h]
    unfold armOptimistic
    dsimp only
    rw [runCancel_calls]

/-- Under the invariant, the listener filter selects exactly the
pending gates. -/
theorem navigate_filter_eq {s : IState} (hinv : Inv s) :
    s.gates.filter (fun g => g.listenerOn && !g.fired) =
      s.gates.filter (fun g => !g.fired) := by
  apply List.filter_congr
  intro g hg
  cases hf : g.fired with
  | false =>
    have := (hinv.flagsPending g hg hf).1
    rw [this]
    rfl
  | true =>
    have := (hinv.flagsFired g hg hf).1
    rw [this]
    rfl

/-- With no live listener the `navigate` event is a no-op. -/
theorem stepNavigate_eq_self {s : IState}
    (hq : ∀ g ∈ s.gates, (g.listenerOn && !g.fired) = false) :
    stepNavigate s = s := by
  unfold stepNavigate
  have hfil : s.gates.filter (fun g => g.listenerOn && !g.fired) = [] := by
    rw [List.filter_eq_nil_iff]
    intro g hg
    rw [hq g hg]
    exact Bool.false_ne_true
  have hmap : s.gates.map
      (fun g => if g.listenerOn && !g.fired then latch g else g) = s.gates := by
    have hcong : ∀ g ∈ s.gates,
        (if g.listenerOn && !g.fired then latch g else g) = g := by
      intro g hg
      rw [if_neg]
      rw [hq g hg]
      exact Bool.false_ne_true
    rw [List.map_congr_left hcong]
    simp
  dsimp only
  rw [hfil, hmap]
  simp

/-- A pending gate survives nothing: once latched (fired or
cancelled), a gate stays latched through any update map used by the
machine, and its id survives as well. -/
theorem latched_witness_map (l : List Gate) (p : Gate → Bool) (gid : Nat)
    (hw : ∃ g ∈ l, g.id = gid ∧ g.fired = true) :
    ∃ g2 ∈ l.map (fun g => if p g then latch g else g),
      g2.id = gid ∧ g2.fired = true := by
  obtain ⟨g, hg, hid, hfired⟩ := hw
  by_cases hc : p g = true
  · refine ⟨latch g, ?_, hid, rfl⟩
    rw [List.mem_map]
    exact ⟨g, hg, by simp only [hc, if_true]⟩
  · have hc2 : p g = false := by
      cases hv : p g
      · rfl
      · exact absurd hv hc
    refine ⟨g, ?_, hid, hfired⟩
    rw [List.mem_map]
    exact ⟨g, hg, by simp only [hc2, Bool.false_eq_true, if_false]⟩

/-- Background calls generated from gates whose ids all differ from
`gid` do not contribute to its count. -/
theorem bgCountCalls_map_background (fl : List Gate) (gid : Nat)
    (h : ∀ g ∈ fl, g.id ≠ gid) :
    bgCountCalls (fl.map fun g => .background g.id g.href) gid = 0 := by
  induction fl with
  | nil => rfl
  | cons g rest ih =>
    rw [List.map_cons]
    have hmain : bgCountCalls
        (HostCall.background g.id g.href ::
          rest.map fun g => .background g.id g.href) gid =
        bgCountCalls [HostCall.background g.id g.href] gid +
          bgCountCalls (rest.map fun g => .background g.id g.href) gid := by
      rw [← bgCountCalls_append]
      rfl
    rw [hmain, bgCountCalls_background, if_neg (h g (List.mem_cons_self _ _)),
      ih (fun g2 hg2 => h g2 (List.mem_cons_of_mem _ hg2))]

theorem inv_stepNavigate {s : IState} (hinv : Inv s) : Inv (stepNavigate s) := by
  cases hfil : s.gates.filter (fun g => !g.fired) with
  | nil =>
    have hq : ∀ g ∈ s.gates, (g.listenerOn && !g.fired) = false := by
      intro g hg
      cases hf : g.fired with
      | true =>
        rw [(hinv.flagsFired g hg hf).1]
        rfl
      | false =>
        exfalso
        have : g ∈ s.gates.filter (fun g => !g.fired) := by
          rw [List.mem_filter]
          exact ⟨hg, by rw [hf]; rfl⟩
        rw [hfil] at this
        cases this
    rw [stepNavigate_eq_self hq]
    exact hinv
  | cons g0 rest =>
    have hlen := hinv.countPending_le_one
    rw [countPending, hfil] at hlen
    have hrest : rest = [] := by
      cases rest with
      | nil => rfl
      | cons b r2 => simp at hlen
    subst hrest
    have hg0 : g0 ∈ s.gates ∧ g0.fired = false := by
      have : g0 ∈ s.gates.filter (fun g => !g.fired) := by
        rw [hfil]
        exact List.mem_cons_self _ _
      rw [List.mem_filter] at this
      refine ⟨this.1, ?_⟩
      have := this.2
      simp at this
      exact this
    have hfil2 : s.gates.filter (fun g => g.listenerOn && !g.fired) = [g0] := by
      rw [navigate_filter_eq hinv, hfil]
    unfold stepNavigate
    dsimp only
    rw [hfil2]
    constructor
    · rw [map_id_latch_map]
      exact hinv.nodup
    · intro g2 hg2
      obtain ⟨g, hg, hcase⟩ := mem_map_ite s.gates g2 hg2
      rcases hcase with ⟨_, he⟩ | ⟨_, he⟩
      · subst he
        exact hinv.idsLt g hg
      · subst he
        exact hinv.idsLt g2 hg
    · intro g2 hg2 hf
      obtain ⟨g, hg, hcase⟩ := mem_map_ite s.gates g2 hg2
      rcases hcase with ⟨_, he⟩ | ⟨hc, he⟩
      · subst he
        cases hf
      · subst he
        cases hfg : g2.fired with
        | true =>
          rw [hfg] at hf
          cases hf
        | false =>
          exfalso
          have hl := (hinv.flagsPending g2 hg hfg).1
          rw [hl, hfg] at hc
          cases hc
    · intro g2 hg2 hf
      obtain ⟨g, hg, hcase⟩ := mem_map_ite s.gates g2 hg2
      rcases hcase with ⟨_, he⟩ | ⟨hc, he⟩
      · subst he
        exact ⟨rfl, rfl⟩
      · subst he
        exact hinv.flagsFired g2 hg hf
    · intro g2 hg2 hf
      obtain ⟨g, hg, hcase⟩ := mem_map_ite s.gates g2 hg2
      rcases hcase with ⟨_, he⟩ | ⟨hc, he⟩
      · subst he
        cases hf
      · subst he
        cases hfg : g2.fired with
        | true =>
          rw [hfg] at hf
          cases hf
        | false =>
          exfalso
          have hl := (hinv.flagsPending g2 hg hfg).1
          rw [hl, hfg] at hc
          cases hc
    · intro gid
      rw [List.map_cons, List.map_nil, bgCountCalls_append,
        bgCountCalls_background]
      by_cases hid : g0.id = gid
      · rw [if_pos hid]
        have hz := hinv.bgPendingZero g0 hg0.1 hg0.2
        rw [hid] at hz
        omega
      · rw [if_neg hid]
        have := hinv.bgOnce gid
        omega
    · intro gid hge
      rw [List.map_cons, List.map_nil, bgCountCalls_append,
        bgCountCalls_background] at hge
      by_cases hid : g0.id = gid
      · have hcond : (g0.listenerOn && !g0.fired) = true := by
          rw [(hinv.flagsPending g0 hg0.1 hg0.2).1, hg0.2]
          rfl
        refine ⟨latch g0, ?_, hid, rfl⟩
        rw [List.mem_map]
        exact ⟨g0, hg0.1, by simp only [hcond, if_true]⟩
      · rw [if_neg hid] at hge
        have hold := hinv.bgFired gid (by omega)
        exact latched_witness_map s.gates _ gid hold

theorem gatePending_iff (s : IState) (gid : Nat) :
    gatePending s gid = true ↔
      ∃ g ∈ s.gates, g.id = gid ∧ g.fired = false := by
  unfold gatePending
  rw [List.any_eq_true]
  constructor
  · intro ⟨g, hg, hc⟩
    rw [Bool.and_eq_true, beq_iff_eq, Bool.not_eq_true'] at hc
    exact ⟨g, hg, hc⟩
  · intro ⟨g, hg, h1, h2⟩
    refine ⟨g, hg, ?_⟩
    rw [Bool.and_eq_true, beq_iff_eq, Bool.not_eq_true']
    exact ⟨h1, h2⟩

/-- A latched gate with a given id excludes a pending one. -/
theorem gatePending_false_of_latched {s : IState} (hinv : Inv s) (gid : Nat)
    (hw : ∃ g ∈ s.gates, g.id = gid ∧ g.fired = true) :
    gatePending s gid = false := by
  obtain ⟨g, hg, hid, hfired⟩ := hw
  cases hv : gatePending s gid with
  | false => rfl
  | true =>
    obtain ⟨g2, hg2, hid2, hf2⟩ := (gatePending_iff s gid).mp hv
    have : g2 = g := gates_id_inj hinv g2 hg2 g hg (by rw [hid2, hid])
    subst this
    rw [hfired] at hf2
    cases hf2

/-- A pending gate makes the pending filter a singleton. -/
theorem pending_filter_singleton {s : IState} (hinv : Inv s) {gid : Nat}
    (hp : gatePending s gid = true) :
    ∃ g0, s.gates.filter (fun g => !g.fired) = [g0] ∧ g0 ∈ s.gates ∧
      g0.id = gid ∧ g0.fired = false := by
  obtain ⟨g, hg, hid, hf⟩ := (gatePending_iff s gid).mp hp
  have hmem : g ∈ s.gates.filter (fun g => !g.fired) := by
    rw [List.mem_filter]
    exact ⟨hg, by rw [hf]; rfl⟩
  cases hfil : s.gates.filter (fun g => !g.fired) with
  | nil =>
    rw [hfil] at hmem
    cases hmem
  | cons g0 rest =>
    have hlen := hinv.countPending_le_one
    rw [countPending, hfil] at hlen
    have hrest : rest = [] := by
      cases rest with
      | nil => rfl
      | cons b r2 => simp at hlen
    subst hrest
    have hg0mem : g0 ∈ s.gates ∧ g0.fired = false := by
      have : g0 ∈ s.gates.filter (fun g => !g.fired) := by
        rw [hfil]
        exact List.mem_cons_self _ _
      rw [List.mem_filter] at this
      refine ⟨this.1, ?_⟩
      have h2 := this.2
      simp at h2
      exact h2
    have hgg0 : g = g0 := by
      rw [hfil] at hmem
      rcases List.mem_singleton.mp hmem with h2
      exact h2
    subst hgg0
    exact ⟨g, rfl, hg, hid, hf⟩

theorem inv_stepTimer {s : IState} (hinv : Inv s) (gid : Nat) :
    Inv (stepTimer s gid) := by
  unfold stepTimer
  cases hf : s.gates.find? (fun g => g.id == gid) with
  | none => exact hinv
  | some g =>
    have hmem := List.mem_of_find?_eq_some hf
    have hidb := List.find?_some hf
    have hid : g.id = gid := beq_iff_eq.mp hidb
    dsimp only
    cases hton : g.timerOn with
    | false =>
      rw [if_pos (by decide)]
      exact hinv
    | true =>
      rw [if_neg (by decide)]
      cases hfg : g.fired with
      | true =>
        exfalso
        have := (hinv.flagsFired g hmem hfg).2
        rw [this] at hton
        cases hton
      | false =>
        rw [if_neg (by decide)]
        constructor
        · rw [map_id_latch_map]
          exact hinv.nodup
        · intro g2 hg2
          obtain ⟨g3, hg3, hcase⟩ := mem_map_ite s.gates g2 hg2
          rcases hcase with ⟨_, he⟩ | ⟨_, he⟩
          · subst he
            exact hinv.idsLt g3 hg3
          · subst he
            exact hinv.idsLt g2 hg3
        · intro g2 hg2 hf2
          obtain ⟨g3, hg3, hcase⟩ := mem_map_ite s.gates g2 hg2
          rcases hcase with ⟨_, he⟩ | ⟨_, he⟩
          · subst he
            cases hf2
          · subst he
            exact hinv.flagsPending g2 hg3 hf2
        · intro g2 hg2 hf2
          obtain ⟨g3, hg3, hcase⟩ := mem_map_ite s.gates g2 hg2
          rcases hcase with ⟨_, he⟩ | ⟨_, he⟩
          · subst he
            exact ⟨rfl, rfl⟩
          · subst he
            exact hinv.flagsFired g2 hg3 hf2
        · intro g2 hg2 hf2
          obtain ⟨g3, hg3, hcase⟩ := mem_map_ite s.gates g2 hg2
          rcases hcase with ⟨_, he⟩ | ⟨hc, he⟩
          · subst he
            cases hf2
          · subst he
            exfalso
            have heq : g2 = g := hinv.pendingUnique g2 hg3 g hmem hf2 hfg
            subst heq
            rw [beq_eq_false_iff_ne] at hc
            exact hc hid
        · intro gid2
          rw [bgCountCalls_append, bgCountCalls_background]
          by_cases hid2 : gid = gid2
          · rw [if_pos hid2]
            have hz := hinv.bgPendingZero g hmem hfg
            rw [hid, hid2] at hz
            omega
          · rw [if_neg hid2]
            have := hinv.bgOnce gid2
            omega
        · intro gid2 hge
          rw [bgCountCalls_append, bgCountCalls_background] at hge
          by_cases hid2 : gid = gid2
          · refine ⟨latch g, ?_, by rw [← hid2]; exact hid, rfl⟩
            rw [List.mem_map]
            exact ⟨g, hmem, by simp only [hidb, if_true]⟩
          · rw [if_neg hid2] at hge
            have hold := hinv.bgFired gid2 (by omega)
            exact latched_witness_map s.gates _ gid2 hold

theorem inv_step {Props : Type} (env : IEnv Props) {s : IState}
    (hinv : Inv s) : ∀ ev, Inv (step env s ev)
  | .visit href opts current => inv_stepVisit env hinv href opts current
  | .navigate => inv_stepNavigate hinv
  | .timer gid => inv_stepTimer hinv gid

theorem inv_runFrom {Props : Type} (env : IEnv Props) :
    ∀ (evs : List Ev) (s : IState), Inv s → Inv (runFrom env s evs) := by
  intro evs
  induction evs with
  | nil =>
    intro s hinv
    exact hinv
  | cons ev rest ih =>
    intro s hinv
    exact ih (step env s ev) (inv_step env hinv ev)

theorem inv_run {Props : Type} (env : IEnv Props) (evs : List Ev) :
    Inv (run env evs) :=
  inv_runFrom env evs initState inv_initState

/-- After a `navigate` delivery no gate is pending. -/
theorem stepNavigate_all_fired {s : IState} (hinv : Inv s) :
    ∀ g2 ∈ (stepNavigate s).gates, g2.fired = true := by
  intro g2 hg2
  unfold stepNavigate at hg2
  dsimp only at hg2
  obtain ⟨g, hg, hcase⟩ := mem_map_ite s.gates g2 hg2
  rcases hcase with ⟨_, he⟩ | ⟨hc, he⟩
  · subst he
    rfl
  · subst he
    cases hfg : g2.fired with
    | true => rfl
    | false =>
      exfalso
      have hl := (hinv.flagsPending g2 hg hfg).1
      rw [hl, hfg] at hc
      cases hc

/-- The `navigate` delivery fires the pending gate's background request
exactly once. -/
theorem stepNavigate_fires {s : IState} {gid : Nat} (hinv : Inv s)
    (hp : gatePending s gid = true) :
    bgCount (stepNavigate s) gid = 1 := by
  obtain ⟨g0, hfil, hg0, hid, hf⟩ := pending_filter_singleton hinv hp
  have hfil2 : s.gates.filter (fun g => g.listenerOn && !g.fired) = [g0] := by
    rw [navigate_filter_eq hinv, hfil]
  unfold stepNavigate bgCount
  dsimp only
  rw [hfil2, List.map_cons, List.map_nil, bgCountCalls_append,
    bgCountCalls_background, if_pos hid]
  have hz := hinv.bgPendingZero g0 hg0 hf
  rw [hid] at hz
  omega

/-- A timer whose gate has no armed timer is a no-op. -/
theorem stepTimer_eq_self {s : IState} {gid : Nat}
    (h : ∀ g ∈ s.gates, g.id = gid → g.timerOn = false) :
    stepTimer s gid = s := by
  unfold stepTimer
  cases hf : s.gates.find? (fun g => g.id == gid) with
  | none => rfl
  | some g =>
    have hmem := List.mem_of_find?_eq_some hf
    have hidb := List.find?_some hf
    have hton : g.timerOn = false := h g hmem (beq_iff_eq.mp hidb)
    dsimp only
    rw [if_pos (by rw [hton]; rfl)]

/-- The fallback timer fires the pending gate's background request
exactly once. -/
theorem stepTimer_fires {s : IState} {gid : Nat} (hinv : Inv s)
    (hp : gatePending s gid = true) :
    bgCount (stepTimer s gid) gid = 1 ∧
      ∀ g2 ∈ (stepTimer s gid).gates, g2.fired = true := by
  obtain ⟨g, hg, hid, hf⟩ := (gatePending_iff s gid).mp hp
  have hfind : s.gates.find? (fun g2 => g2.id == gid) = some g := by
    cases hfv : s.gates.find? (fun g2 => g2.id == gid) with
    | none =>
      exfalso
      rw [List.find?_eq_none] at hfv
      have := hfv g hg
      rw [beq_iff_eq] at this
      exact this hid
    | some g2 =>
      have hmem2 := List.mem_of_find?_eq_some hfv
      have hidb2 := List.find?_some hfv
      have hid2 : g2.id = gid := beq_iff_eq.mp hidb2
      have : g2 = g := gates_id_inj hinv g2 hmem2 g hg (by rw [hid2, hid])
      rw [this]
  have hton : g.timerOn = true := (hinv.flagsPending g hg hf).2
  unfold stepTimer bgCount
  rw [hfind]
  dsimp only
  rw [if_neg (by rw [hton]; simp), if_neg (by rw [hf]; simp)]
  constructor
  · dsimp only
    rw [bgCountCalls_append, bgCountCalls_background, if_pos rfl]
    have hz := hinv.bgPendingZero g hg hf
    rw [hid] at hz
    omega
  · intro g2 hg2
    dsimp only at hg2
    obtain ⟨g3, hg3, hcase⟩ := mem_map_ite s.gates g2 hg2
    rcases hcase with ⟨_, he⟩ | ⟨hc, he⟩
    · subst he
      rfl
    · subst he
      cases hfg : g2.fired with
      | true => rfl
      | false =>
        exfalso
        have heq : g2 = g := hinv.pendingUnique g2 hg3 g hg hfg hf
        subst heq
        rw [beq_eq_false_iff_ne] at hc
        exact hc hid

/-- After the `navigate` event, the fallback timer of any gate is a
no-op. -/
theorem stepTimer_after_navigate {s : IState} (hinv : Inv s) (gid : Nat) :
    stepTimer (stepNavigate s) gid = stepNavigate s :=
  stepTimer_eq_self (fun g hg _ =>
    ((inv_stepNavigate hinv).flagsFired g hg
      (stepNavigate_all_fired hinv g hg)).2)

/-- After the fallback timer fired the pending gate, the `navigate`
event is a no-op. -/
theorem stepNavigate_after_timer {s : IState} {gid : Nat} (hinv : Inv s)
    (hp : gatePending s gid = true) :
    stepNavigate (stepTimer s gid) = stepTimer s gid := by
  apply stepNavigate_eq_self
  intro g hg
  have hfired := (stepTimer_fires hinv hp).2 g hg
  rw [((inv_stepTimer hinv gid).flagsFired g hg hfired).1, hfired]
  rfl

/-- A latched witness survives the timer-off map. -/
theorem latched_witness_map_timerOff (l : List Gate) (p : Gate → Bool)
    (gid : Nat) (hw : ∃ g ∈ l, g.id = gid ∧ g.fired = true) :
    ∃ g2 ∈ l.map (fun g => if p g then { g with timerOn := false } else g),
      g2.id = gid ∧ g2.fired = true := by
  obtain ⟨g, hg, hid, hfired⟩ := hw
  by_cases hc : p g = true
  · refine ⟨{ g with timerOn := false }, ?_, hid, hfired⟩
    rw [List.mem_map]
    exact ⟨g, hg, by simp only [hc, if_true]⟩
  · have hc2 : p g = false := by
      cases hv : p g
      · rfl
      · exact absurd hv hc
    refine ⟨g, ?_, hid, hfired⟩
    rw [List.mem_map]
    exact ⟨g, hg, by simp only [hc2, Bool.false_eq_true, if_false]⟩

/-- A latched witness survives cancellation. -/
theorem latched_witness_runCancel {s : IState} {gid : Nat}
    (hw : ∃ g ∈ s.gates, g.id = gid ∧ g.fired = true) :
    ∃ g2 ∈ (runCancel s).gates, g2.id = gid ∧ g2.fired = true := by
  unfold runCancel
  cases s.cancelTarget with
  | none => exact hw
  | some gid2 =>
    dsimp only
    by_cases hp : (s.gates.any fun g => g.id == gid2 && !g.fired) = true
    · rw [if_pos hp]
      exact latched_witness_map s.gates _ gid hw
    · rw [if_neg hp]
      exact hw

/-- A latched witness survives any step. -/
theorem step_latched_witness {Props : Type} (env : IEnv Props) {s : IState}
    {gid : Nat}
    (hw : ∃ g ∈ s.gates, g.id = gid ∧ g.fired = true) :
    ∀ ev, ∃ g2 ∈ (step env s ev).gates, g2.id = gid ∧ g2.fired = true := by
  intro ev
  cases ev with
  | visit href opts current =>
    show ∃ g2 ∈ (stepVisit env s href opts current).gates, _
    unfold stepVisit
    have hw2 := latched_witness_runCancel hw
    rcases visitCore_result env (runCancel s) href opts current with h | h | ⟨m, h⟩
    · rw [h]
      exact hw2
    · rw [h]
      exact hw2
    · rw [h]
      obtain ⟨g2, hg2, hid2, hf2⟩ := hw2
      exact ⟨g2, List.mem_append_left _ hg2, hid2, hf2⟩
  | navigate =>
    show ∃ g2 ∈ (stepNavigate s).gates, _
    unfold stepNavigate
    dsimp only
    exact latched_witness_map s.gates _ gid hw
  | timer tid =>
    show ∃ g2 ∈ (stepTimer s tid).gates, _
    unfold stepTimer
    cases hf : s.gates.find? (fun g => g.id == tid) with
    | none => exact hw
    | some g =>
      dsimp only
      by_cases hton : (!g.timerOn) = true
      · rw [if_pos hton]
        exact hw
      · rw [if_neg hton]
        by_cases hfg : g.fired = true
        · rw [if_pos hfg]
          exact latched_witness_map_timerOff s.gates _ gid hw
        · rw [if_neg hfg]
          exact latched_witness_map s.gates _ gid hw

/-- No step can issue a background call for a gate that is already
latched with none on record. -/
theorem step_latched_count {Props : Type} (env : IEnv Props) {s : IState}
    {gid : Nat} (hinv : Inv s)
    (hw : ∃ g ∈ s.gates, g.id = gid ∧ g.fired = true)
    (hz : bgCount s gid = 0) :
    ∀ ev, bgCount (step env s ev) gid = 0 := by
  obtain ⟨g, hg, hid, hfired⟩ := hw
  intro ev
  cases ev with
  | visit href opts current =>
    show bgCount (stepVisit env s href opts current) gid = 0
    rw [bgCount_stepVisit]
    exact hz
  | navigate =>
    show bgCount (stepNavigate s) gid = 0
    unfold stepNavigate bgCount
    dsimp only
    rw [bgCountCalls_append]
    have hmap : bgCountCalls
        ((s.gates.filter fun g2 => g2.listenerOn && !g2.fired).map
          fun g2 => .background g2.id g2.href) gid = 0 := by
      apply bgCountCalls_map_background
      intro g2 hg2
      rw [List.mem_filter] at hg2
      have hcond := hg2.2
      rw [Bool.and_eq_true] at hcond
      have hf2 : g2.fired = false := by
        have := hcond.2
        rw [Bool.not_eq_true'] at this
        exact this
      intro hid2
      have : g2 = g := gates_id_inj hinv g2 hg2.1 g hg (by rw [hid2, hid])
      subst this
      rw [hf2] at hfired
      cases hfired
    unfold bgCount at hz
    rw [hz, hmap]
  | timer tid =>
    show bgCount (stepTimer s tid) gid = 0
    unfold stepTimer
    cases hfv : s.gates.find? (fun g2 => g2.id == tid) with
    | none => exact hz
    | some g2 =>
      dsimp only
      by_cases hton : (!g2.timerOn) = true
      · rw [if_pos hton]
        exact hz
      · rw [if_neg hton]
        by_cases hfg : g2.fired = true
        · rw [if_pos hfg]
          exact hz
        · rw [if_neg hfg]
          unfold bgCount
          dsimp only
          rw [bgCountCalls_append, bgCountCalls_background]
          have hmem2 := List.mem_of_find?_eq_some hfv
          have hidb2 := List.find?_some hfv
          have hid2 : g2.id = tid := beq_iff_eq.mp hidb2
          have hne : tid ≠ gid := by
            intro he
            have : g2 = g := gates_id_inj hinv g2 hmem2 g hg
              (by rw [hid2, he, hid])
            subst this
            exact hfg hfired
          rw [if_neg hne]
          unfold bgCount at hz
          rw [hz]

/-- Once a gate is latched with no background call on record, no
continuation of the trace ever issues one for it. -/
theorem runFrom_latched_count {Props : Type} (env : IEnv Props) :
    ∀ (evs : List Ev) (s : IState) (gid : Nat), Inv s →
      (∃ g ∈ s.gates, g.id = gid ∧ g.fired = true) →
      bgCount s gid = 0 →
      bgCount (runFrom env s evs) gid = 0 := by
  intro evs
  induction evs with
  | nil =>
    intro s gid _ _ hz
    exact hz
  | cons ev rest ih =>
    intro s gid hinv hw hz
    exact ih (step env s ev) gid (inv_step env hinv ev)
      (step_latched_witness env hw ev)
      (step_latched_count env hinv hw hz ev)

/-- A visit on a state with a pending gate latches that gate: it is no
longer pending, and no background call for it exists. -/
theorem stepVisit_latches {Props : Type} (env : IEnv Props) {s : IState}
    {gid : Nat} (hinv : Inv s) (hp : gatePending s gid = true)
    (href : String) (opts : Option VisitOpts) (current : Option CurrentPage) :
    (∃ g2 ∈ (stepVisit env s href opts current).gates,
        g2.id = gid ∧ g2.fired = true) ∧
      bgCount (stepVisit env s href opts current) gid = 0 ∧
      gatePending (stepVisit env s href opts current) gid = false := by
  obtain ⟨g, hg, hid, hf⟩ := (gatePending_iff s gid).mp hp
  have hwrc : ∃ g2 ∈ (runCancel s).gates, g2.id = gid ∧ g2.fired = true := by
    have hmemid : gid ∈ (runCancel s).gates.map Gate.id := by
      rw [runCancel_gates_ids]
      rw [List.mem_map]
      exact ⟨g, hg, hid⟩
    rw [List.mem_map] at hmemid
    obtain ⟨g2, hg2, hid2⟩ := hmemid
    exact ⟨g2, hg2, hid2, runCancel_no_pending hinv g2 hg2⟩
  have hwitness : ∃ g2 ∈ (stepVisit env s href opts current).gates,
      g2.id = gid ∧ g2.fired = true := by
    unfold stepVisit
    rcases visitCore_result env (runCancel s) href opts current with h | h | ⟨m, h⟩
    · rw [h]
      exact hwrc
    · rw [h]
      exact hwrc
    · rw [h]
      obtain ⟨g2, hg2, hid2, hf2⟩ := hwrc
      exact ⟨g2, List.mem_append_left _ hg2, hid2, hf2⟩
  have hcount : bgCount (stepVisit env s href opts current) gid = 0 := by
    rw [bgCount_stepVisit]
    have := hinv.bgPendingZero g hg hf
    rw [hid] at this
    exact this
  exact ⟨hwitness, hcount,
    gatePending_false_of_latched (inv_stepVisit env hinv href opts current)
      gid hwitness⟩

end Interceptor

/-- Example route for the interceptor traces. -/
def exampleAboutRoute : ManifestRoute :=
  { pattern := "/about", component := "About",
    middleware := [], parameters := [] }

/-- Example environment: one manifest route, engine enabled, no
preflight, empty cache, no exclusions. -/
def exampleEnv : IEnv Unit :=
  { routes := [exampleAboutRoute], excludes := [], enabled := true,
    origin := "http://localhost", hasPreflight := false,
    preflightData := [], nowSec := 0, cache := [], ttl := 1000 }

/-- Example ambient current page. -/
def exampleCurrent : Option CurrentPage :=
  some { url := "/home", authUser := true }

/-- A single optimistic navigation to `/about`. -/
def exampleVisitTrace : List Ev :=
  [.visit "/about" none exampleCurrent]

/-- Example route `/admin` for the exclusion scenario. -/
def exampleAdminRoute : ManifestRoute :=
  { pattern := "/admin", component := "Admin",
    middleware := [], parameters := [] }

/-- Environment whose configuration excludes `/admin*`. -/
def exampleEnvExcluded : IEnv Unit :=
  { routes := [exampleAdminRoute], excludes := ["/admin*"], enabled := true,
    origin := "http://localhost", hasPreflight := false,
    preflightData := [], nowSec := 0, cache := [], ttl := 1000 }

/-- Visit of the excluded URL `/admin`. -/
def exampleExcludedTrace : List Ev :=
  [.visit "/admin" none (some { url := "/dashboard", authUser := true })]

/-- C1 (code bug). The skip chain of `patchedVisit` never consults
`isExcluded`: visiting `/admin` with the exclude pattern `/admin*`
configured — so `isExcluded` returns true — still performs the
optimistic render (a push is recorded), issues no passthrough call to
the original entry point, and arms a background request. The claim
matches the repository's own test suite (patch.test.ts, "skips URLs
excluded by config matcher"), which this behaviour fails. -/
theorem interceptor_ignores_exclusion :
    Matcher.isExcluded exampleEnvExcluded.excludes "/admin" = true ∧
    (Interceptor.run exampleEnvExcluded exampleExcludedTrace).pushes =
      [{ id := 0, component := "Admin", url := "/admin" }] ∧
    (Interceptor.run exampleEnvExcluded exampleExcludedTrace).calls = [] ∧
    Interceptor.gatePending
      (Interceptor.run exampleEnvExcluded exampleExcludedTrace) 0 = true := by
  refine ⟨by decide, by decide, by decide, by decide⟩

/-- C2 (confirmed). For every trace: at most one background call is
ever issued per optimistic navigation; a visit call never issues a
background call synchronously; and for a pending navigation, either
the render-complete event or the fallback timer fires the background
request exactly once, after which the other trigger is a no-op. -/
theorem interceptor_background_exactly_once {Props : Type} (env : IEnv Props)
    (evs : List Ev) (gid : Nat) (href : String) (opts : Option VisitOpts)
    (current : Option CurrentPage) (s : IState) :
    (∀ gid2, Interceptor.bgCount (Interceptor.run env evs) gid2 ≤ 1) ∧
    Interceptor.bgCount (Interceptor.stepVisit env s href opts current) gid =
      Interceptor.bgCount s gid ∧
    (Interceptor.gatePending (Interceptor.run env evs) gid = true →
      Interceptor.bgCount (Interceptor.stepNavigate (Interceptor.run env evs))
          gid = 1 ∧
      Interceptor.bgCount (Interceptor.stepTimer (Interceptor.run env evs) gid)
          gid = 1 ∧
      Interceptor.stepTimer (Interceptor.stepNavigate (Interceptor.run env evs))
          gid = Interceptor.stepNavigate (Interceptor.run env evs) ∧
      Interceptor.stepNavigate (Interceptor.stepTimer (Interceptor.run env evs)
          gid) = Interceptor.stepTimer (Interceptor.run env evs) gid) := by
  have hinv := Interceptor.inv_run env evs
  refine ⟨fun gid2 => hinv.bgOnce gid2,
    Interceptor.bgCount_stepVisit env s href opts current gid, ?_⟩
  intro hp
  exact ⟨Interceptor.stepNavigate_fires hinv hp,
    (Interceptor.stepTimer_fires hinv hp).1,
    Interceptor.stepTimer_after_navigate hinv gid,
    Interceptor.stepNavigate_after_timer hinv hp⟩

/-- Witness for C2: the navigate event fires the armed gate exactly
once on the concrete trace. -/
theorem interceptor_background_exactly_once_witness :
    Interceptor.bgCount
      (Interceptor.stepNavigate (Interceptor.run exampleEnv exampleVisitTrace))
      0 = 1 :=
  ((interceptor_background_exactly_once exampleEnv exampleVisitTrace 0 "/x"
    none none Interceptor.initState).2.2 (by decide)).1

/-- C3 (confirmed). At most one pending background request exists at
any time; every visit call — optimistic or not — cancels the pending
one before anything else, so the cancelled request never fires, in the
visit itself or in any continuation of the trace (timer expiries
included); cancellation clears the loading flag and is idempotent. -/
theorem interceptor_cancel_on_new_navigation {Props : Type} (env : IEnv Props)
    (evs evs2 : List Ev) (gid : Nat) (href : String) (opts : Option VisitOpts)
    (current : Option CurrentPage) (s0 : IState) :
    Interceptor.countPending (Interceptor.run env evs) ≤ 1 ∧
    (Interceptor.gatePending (Interceptor.run env evs) gid = true →
      Interceptor.gatePending
        (Interceptor.stepVisit env (Interceptor.run env evs) href opts current)
        gid = false ∧
      Interceptor.bgCount
        (Interceptor.stepVisit env (Interceptor.run env evs) href opts current)
        gid = 0 ∧
      Interceptor.bgCount
        (Interceptor.runFrom env
          (Interceptor.stepVisit env (Interceptor.run env evs) href opts
            current) evs2) gid = 0) ∧
    (Interceptor.gatePending (Interceptor.run env evs) gid = true →
      (Interceptor.runCancel (Interceptor.run env evs)).loading = false) ∧
    Interceptor.runCancel (Interceptor.runCancel s0) =
      Interceptor.runCancel s0 := by
  have hinv := Interceptor.inv_run env evs
  refine ⟨hinv.countPending_le_one, ?_, ?_, Interceptor.runCancel_idem s0⟩
  · intro hp
    obtain ⟨hw, hz, hnp⟩ :=
      Interceptor.stepVisit_latches env hinv hp href opts current
    refine ⟨hnp, hz, ?_⟩
    exact Interceptor.runFrom_latched_count env evs2 _ gid
      (Interceptor.inv_stepVisit env hinv href opts current) hw hz
  · intro hp
    obtain ⟨g, hg, hid, hf⟩ := (Interceptor.gatePending_iff _ gid).mp hp
    have ht := hinv.pointer g hg hf
    unfold Interceptor.runCancel
    rw [ht]
    dsimp only
    have hpend : ((Interceptor.run env evs).gates.any
        fun g2 => g2.id == g.id && !g2.fired) = true := by
      rw [List.any_eq_true]
      refine ⟨g, hg, ?_⟩
      rw [Bool.and_eq_true, beq_iff_eq, Bool.not_eq_true']
      exact ⟨rfl, hf⟩
    rw [if_pos hpend]

/-- Witness for C3: navigation B after A leaves A's background request
permanently suppressed even past the fallback deadline. -/
theorem interceptor_cancel_on_new_navigation_witness :
    Interceptor.bgCount
      (Interceptor.runFrom exampleEnv
        (Interceptor.stepVisit exampleEnv
          (Interceptor.run exampleEnv exampleVisitTrace) "/other" none
          exampleCurrent) [.timer 0, .navigate]) 0 = 0 :=
  ((interceptor_cancel_on_new_navigation exampleEnv exampleVisitTrace
    [.timer 0, .navigate] 0 "/other" none exampleCurrent
    Interceptor.initState).2.1 (by decide)).2.2

end Force10

